import Mathlib

/-!
Verification development for `build_publications.py`, a one-shot generator that
reads a publications table and renders a static HTML page.

The program's string-level operations are embedded shallowly over `List Char`
(the model of a Python `str`), with `String` wrappers kept where convenient.
Python's `html.escape`, `str.strip`, `str.lower`, `str.split`, `str.replace`
and the four `re.sub` emphasis substitutions of `fmt` are modelled faithfully,
character by character, on the ASCII fragment relevant to the program
(the input data is an ASCII CSV; Unicode-only lowercase/whitespace cases do not
affect any of the properties below, which are stated uniformly in terms of the
model's own trim/lowercase).  Recursive scanners that are not structurally
recursive are defined with an explicit fuel argument (always instantiated with
the input length, which is provably sufficient) so that every definition
evaluates by kernel reduction.
-/

set_option maxRecDepth 40000

/-- The apostrophe character (U+0027), named to keep source text readable. -/
def quoteCh : Char := Char.ofNat 39

/-- Whitespace stripped by Python's `str.strip()` (ASCII fragment). -/
def pySpace (c : Char) : Bool :=
  c = ' ' || c = '\t' || c = '\n' || c = '\r' || c = Char.ofNat 11 || c = Char.ofNat 12

/-- Python `str.strip()` on the character-list model. -/
def trimL (l : List Char) : List Char :=
  ((l.dropWhile pySpace).reverse.dropWhile pySpace).reverse

/-- Python `str.strip()` on strings. -/
def pyStrip (s : String) : String := String.mk (trimL s.data)

/-- Python `str.lower()` (ASCII fragment) on the character-list model. -/
def lowerL (l : List Char) : List Char := l.map Char.toLower

/-- One character of Python's `html.escape(s, quote=True)`:
`&`, `<`, `>`, `"` and the apostrophe become entities, all else is kept. -/
def escChar (c : Char) : List Char :=
  if c = '&' then "&amp;".data
  else if c = '<' then "&lt;".data
  else if c = '>' then "&gt;".data
  else if c = '"' then "&quot;".data
  else if c = quoteCh then "&#x27;".data
  else [c]

/-- `html.escape(s, quote=True)` on the character-list model.  The sequential
`str.replace` chain of `html.escape` replaces `&` first and never rescans
replacement text, so it acts independently on each source character. -/
def escL (l : List Char) : List Char := l.flatMap escChar

/-- `esc` from build_publications.py: `html.escape(s or "", quote=True)`. -/
def esc (s : String) : String := String.mk (escL s.data)

/-- `normalize_section` from build_publications.py: strip, lowercase, then
prefix-match `jour` / `work` / `conf`, defaulting to `other`. -/
def normalize_section (s : String) : String :=
  let t := lowerL (trimL s.data)
  if "jour".data.isPrefixOf t then "journal"
  else if "work".data.isPrefixOf t then "working"
  else if "conf".data.isPrefixOf t then "conference"
  else "other"

/-- The authorship line computed inside `article`:
empty (after strip) or case-insensitive "solo" renders the solo marker,
anything else renders as `with ` followed by the escaped authors text. -/
def authorsHtml (authors : String) : String :=
  let a := trimL authors.data
  if a = [] ∨ String.mk (lowerL a) = "solo" then "solo"
  else "with " ++ String.mk (escL a)

example : normalize_section "Journal Article" = "journal" := by decide
example : authorsHtml " SOLO " = "solo" := by decide
example : authorsHtml "A. Coauthor" = "with A. Coauthor" := by decide

/-! Template string constants transcribed from build_publications.py
(the module-level ICON_COMMENT, the icons inside pills, and the fixed parts
of the f-string templates in links and article). -/

def ICON_COMMENT : String :=
  "<svg class=\x22i\x22 viewBox=\x220 0 24 24\x22 fill=\x22none\x22 stroke=\x22currentColor\x22 stroke-width=\x222\x22 stroke-linecap=\x22round\x22 stroke-linejoin=\x22round\x22 aria-hidden=\x22true\x22><path d=\x22M21 15a2 2 0 0 1-2 2H8l-4 4v-4H5a2 2 0 0 1-2-2V5a2 2 0 0 1 2-2h14a2 2 0 0 1 2 2z\x22/></svg>"

def ICON_STATUS : String :=
  "<svg class=\x22i\x22 viewBox=\x220 0 24 24\x22 fill=\x22none\x22 stroke=\x22currentColor\x22 stroke-width=\x222\x22 stroke-linecap=\x22round\x22 stroke-linejoin=\x22round\x22 aria-hidden=\x22true\x22><path d=\x22M12 20l9-5-9-5-9 5 9 5z\x22/><path d=\x22M12 12l9-5-9-5-9 5 9 5z\x22/></svg>"

def ICON_YEAR : String :=
  "<svg class=\x22i\x22 viewBox=\x220 0 24 24\x22 fill=\x22none\x22 stroke=\x22currentColor\x22 stroke-width=\x222\x22 stroke-linecap=\x22round\x22 stroke-linejoin=\x22round\x22 aria-hidden=\x22true\x22><circle cx=\x2212\x22 cy=\x2212\x22 r=\x2210\x22/><path d=\x22M12 6v6l4 2\x22/></svg>"

def citePre : String :=
  "<details class=\x22tool cite\x22><summary class=\x22btn\x22 aria-label=\x22Cite this paper\x22><svg class=\x22i\x22 viewBox=\x220 0 24 24\x22 fill=\x22none\x22 stroke=\x22currentColor\x22 stroke-width=\x222\x22 stroke-linecap=\x22round\x22 stroke-linejoin=\x22round\x22><path d=\x22M14 2H6a2 2 0 0 0-2 2v16l4-4h6a2 2 0 0 0 2-2V4a2 2 0 0 0-2-2z\x22/></svg><span>Cite</span></summary><div class=\x22dropdown cite-body\x22><pre><code>"

def citePost : String :=
  "</code></pre></div></details>"

def mediaPre : String :=
  "<details class=\x22tool media\x22><summary class=\x22btn\x22 aria-label=\x22Media coverage\x22><svg class=\x22i\x22 viewBox=\x220 0 24 24\x22 fill=\x22none\x22 stroke=\x22currentColor\x22 stroke-width=\x222\x22 stroke-linecap=\x22round\x22 stroke-linejoin=\x22round\x22><path d=\x22M19 21H5a2 2 0 0 1-2-2V7a2 2 0 0 1 2-2h10l6 6v8a2 2 0 0 1-2 2z\x22/></svg><span>Media</span></summary><div class=\x22dropdown\x22><div class=\x22media-list\x22>"

def mediaPost : String :=
  "</div></div></details>"

def art0 : String :=
  "\n      <article class=\x22paper\x22 itemscope itemtype=\x22https://schema.org/ScholarlyArticle\x22>\n        <div class=\x22title-row\x22>\n          <h3 class=\x22title\x22 itemprop=\x22headline\x22>"

def art1 : String :=
  "</h3>\n          "

def art2 : String :=
  "\n        </div>\n        <div class=\x22meta\x22>\n          "

def art3 : String :=
  "\n        </div>\n        <div class=\x22authors\x22>"

def art4 : String :=
  "</div>\n        "

def art5 : String :=
  "\n        "

def art6 : String :=
  "\n      </article>"

def cmt0 : String :=
  "\n        <div class=\x22comment\x22>"

def cmt1 : String :=
  "</div>\n    "

def abs0 : String :=
  "\n        <details class=\x22abstract\x22>\n          <summary><svg class=\x22chev\x22 viewBox=\x220 0 24 24\x22 fill=\x22none\x22 stroke=\x22currentColor\x22 stroke-width=\x222\x22 stroke-linecap=\x22round\x22 stroke-linejoin=\x22round\x22><path d=\x22M9 18l6-6-6-6\x22/></svg> Show abstract</summary>\n          <div class=\x22abs-body\x22 itemprop=\x22description\x22>"

def abs1 : String :=
  "</div>\n        </details>"


/-! The four re.sub substitutions of fmt, modelled per Python regex semantics:
left-to-right scan, non-greedy shortest group, no rescan of substituted text.
closeDouble/closeSingle implement the non-greedy search for the closing
marker (with the lookbehind/lookahead conditions of the single-marker
patterns); subDoubleF/subSingleF scan the string, with an explicit fuel
argument (the input length always suffices) so that the definitions are
structurally recursive and evaluate by kernel reduction.  replaceList models
Python str.replace (left-to-right, non-overlapping, no rescan). -/


def closeDouble (m : Char) (acc : List Char) : List Char → Option (List Char × List Char)
  | a :: b :: rest =>
      if a = m ∧ b = m then some (acc.reverse, rest)
      else if a ≠ '\n' then closeDouble m (a :: acc) (b :: rest)
      else none
  | _ => none

theorem closeDouble_some (m : Char) (g rest : List Char) :
    ∀ (l acc : List Char), closeDouble m acc l = some (g, rest) →
    ∃ mid, l = mid ++ m :: m :: rest ∧ g = acc.reverse ++ mid ∧ '\n' ∉ mid := by
  intro l
  induction l with
  | nil => intro acc h; simp [closeDouble] at h
  | cons a t ih =>
      intro acc h
      match t with
      | [] => simp [closeDouble] at h
      | b :: r =>
        rw [closeDouble] at h
        split at h
        · rename_i hab
          obtain ⟨ha, hb⟩ := hab
          simp at h
          obtain ⟨hg, hr⟩ := h
          exact ⟨[], by simp [ha, hb, hr], by simp [hg], by simp⟩
        · split at h
          · rename_i hnl
            obtain ⟨mid, hmid, hgg, hmem⟩ := ih (a :: acc) h
            refine ⟨a :: mid, by simp [hmid], by simp [hgg], ?_⟩
            simp at hnl ⊢
            exact ⟨fun he => hnl he.symm, hmem⟩
          · exact absurd h (by simp)

theorem closeDouble_length (m : Char) (g rest l acc : List Char)
    (h : closeDouble m acc l = some (g, rest)) : rest.length + 2 ≤ l.length := by
  obtain ⟨mid, hmid, -, -⟩ := closeDouble_some m g rest l acc h
  subst hmid
  simp only [List.length_append, List.length_cons]
  omega

def subDoubleF (m : Char) : Nat → List Char → List Char
  | _, [] => []
  | 0, l => l
  | f + 1, a :: rest =>
      match rest with
      | [] => [a]
      | b :: rest2 =>
        if a = m ∧ b = m then
          match rest2 with
          | c :: rest3 =>
            if c ≠ '\n' then
              match closeDouble m [c] rest3 with
              | some (g, rest4) =>
                  "<strong>".data ++ g ++ "</strong>".data ++ subDoubleF m f rest4
              | none => a :: subDoubleF m f rest
            else a :: subDoubleF m f rest
          | [] => a :: subDoubleF m f rest
        else a :: subDoubleF m f rest

theorem subDoubleF_nil (m : Char) (f : Nat) : subDoubleF m f [] = [] := by
  cases f <;> rfl

theorem subDoubleF_fuel (m : Char) :
    ∀ n l, List.length l ≤ n → ∀ f₁ f₂, List.length l ≤ f₁ → List.length l ≤ f₂ →
      subDoubleF m f₁ l = subDoubleF m f₂ l := by
  intro n
  induction n with
  | zero =>
      intro l hl f₁ f₂ h₁ h₂
      have : l = [] := by cases l <;> simp_all
      subst this; simp [subDoubleF_nil]
  | succ n ih =>
      intro l hl f₁ f₂ h₁ h₂
      match l with
      | [] => simp [subDoubleF_nil]
      | a :: rest =>
        simp only [List.length_cons] at hl h₁ h₂
        match f₁, f₂ with
        | g₁ + 1, g₂ + 1 =>
          simp only [subDoubleF]
          match rest with
          | [] => rfl
          | b :: rest2 =>
            simp only [List.length_cons] at hl h₁ h₂
            by_cases hab : a = m ∧ b = m
            · simp only [if_pos hab]
              match rest2 with
              | [] =>
                  exact congrArg _ (ih [b] (by simp; omega) g₁ g₂ (by simp; omega)
                    (by simp; omega))
              | c :: rest3 =>
                  simp only [List.length_cons] at hl h₁ h₂
                  by_cases hc : c ≠ '\n'
                  · simp only [if_pos hc]
                    cases hcd : closeDouble m [c] rest3 with
                    | none =>
                        exact congrArg _ (ih (b :: c :: rest3) (by simp; omega) g₁ g₂
                          (by simp; omega) (by simp; omega))
                    | some p =>
                        obtain ⟨g, rest4⟩ := p
                        have hlen := closeDouble_length m g rest4 rest3 [c] hcd
                        have := ih rest4 (by omega) g₁ g₂ (by omega) (by omega)
                        simp only [this]
                  · simp only [if_neg hc]
                    exact congrArg _ (ih (b :: c :: rest3) (by simp; omega) g₁ g₂
                      (by simp; omega) (by simp; omega))
            · simp only [if_neg hab]
              exact congrArg _ (ih (b :: rest2) (by simp; omega) g₁ g₂
                (by simp; omega) (by simp; omega))

def subDouble (m : Char) (l : List Char) : List Char := subDoubleF m (List.length l) l

theorem subDouble_nil (m : Char) : subDouble m [] = [] := rfl

theorem subDouble_step (m a : Char) (l : List Char)
    (h : a ≠ m ∨ l.head? ≠ some m) :
    subDouble m (a :: l) = a :: subDouble m l := by
  match l with
  | [] =>
      show subDoubleF m 1 [a] = [a]
      rfl
  | b :: l2 =>
      show subDoubleF m ((b :: l2).length + 1) (a :: b :: l2) = _
      have hab : ¬(a = m ∧ b = m) := by
        rcases h with h | h
        · exact fun hh => h hh.1
        · exact fun hh => h (by simp [hh.2])
      simp only [subDoubleF, if_neg hab]
      rfl

theorem subDouble_open (m c : Char) (g rest3 rest4 : List Char)
    (hc : c ≠ '\n') (hcd : closeDouble m [c] rest3 = some (g, rest4)) :
    subDouble m (m :: m :: c :: rest3) =
      "<strong>".data ++ g ++ "</strong>".data ++ subDouble m rest4 := by
  have hlen := closeDouble_length m g rest4 rest3 [c] hcd
  show subDoubleF m ((m :: c :: rest3).length + 1) _ = _
  conv_lhs => rw [subDoubleF]
  rw [if_pos (And.intro rfl rfl), if_pos hc, hcd]
  dsimp only
  have := subDoubleF_fuel m ((m :: c :: rest3).length) rest4
    (by simp at hlen ⊢; omega) ((m :: c :: rest3).length) rest4.length
    (by simp at hlen ⊢; omega) (le_refl _)
  rw [this]
  rfl

theorem subDouble_open_none (m c : Char) (rest3 : List Char)
    (hcd : closeDouble m [c] rest3 = none) :
    subDouble m (m :: m :: c :: rest3) = m :: subDouble m (m :: c :: rest3) := by
  show subDoubleF m ((m :: c :: rest3).length + 1) _ = _
  conv_lhs => rw [subDoubleF]
  by_cases hc : c ≠ '\n'
  · rw [if_pos (And.intro rfl rfl), if_pos hc, hcd]
    rfl
  · rw [if_pos (And.intro rfl rfl), if_neg hc]
    rfl

theorem subDouble_open_nl (m : Char) (rest3 : List Char) :
    subDouble m (m :: m :: '\n' :: rest3) = m :: subDouble m (m :: '\n' :: rest3) := by
  show subDoubleF m ((m :: '\n' :: rest3).length + 1) _ = _
  conv_lhs => rw [subDoubleF]
  rw [if_pos (And.intro rfl rfl), if_neg (show ¬(('\n' : Char) ≠ '\n') by simp)]
  rfl

theorem subDouble_two (m : Char) : subDouble m [m, m] = [m, m] := by
  show subDoubleF m 2 [m, m] = [m, m]
  conv_lhs => rw [subDoubleF]
  rw [if_pos (And.intro rfl rfl)]
  rfl

def closeSingle (m : Char) (acc : List Char) : List Char → Option (List Char × List Char)
  | a :: rest =>
      if a = m ∧ acc.head? ≠ some m ∧ rest.head? ≠ some m then some (acc.reverse, rest)
      else if a ≠ '\n' then closeSingle m (a :: acc) rest
      else none
  | [] => none

theorem closeSingle_some (m : Char) (g rest : List Char) :
    ∀ (l acc : List Char), closeSingle m acc l = some (g, rest) →
    ∃ mid, l = mid ++ m :: rest ∧ g = acc.reverse ++ mid ∧ '\n' ∉ mid := by
  intro l
  induction l with
  | nil => intro acc h; simp [closeSingle] at h
  | cons a t ih =>
      intro acc h
      rw [closeSingle] at h
      split at h
      · rename_i hcond
        simp at h
        obtain ⟨hg, hr⟩ := h
        exact ⟨[], by simp [hcond.1, hr], by simp [hg], by simp⟩
      · split at h
        · rename_i hnl
          obtain ⟨mid, hmid, hgg, hmem⟩ := ih (a :: acc) h
          refine ⟨a :: mid, by simp [hmid], by simp [hgg], ?_⟩
          simp at hnl ⊢
          exact ⟨fun he => hnl he.symm, hmem⟩
        · exact absurd h (by simp)

theorem closeSingle_length (m : Char) (g rest l acc : List Char)
    (h : closeSingle m acc l = some (g, rest)) : rest.length + 1 ≤ l.length := by
  obtain ⟨mid, hmid, -, -⟩ := closeSingle_some m g rest l acc h
  subst hmid
  simp only [List.length_append, List.length_cons]
  omega

def subSingleF (m : Char) : Nat → Option Char → List Char → List Char
  | _, _, [] => []
  | 0, _, l => l
  | f + 1, prev, a :: rest =>
      if a = m ∧ prev ≠ some m ∧ rest.head? ≠ some m then
        match rest with
        | c :: rest2 =>
            if c ≠ '\n' then
              match closeSingle m [c] rest2 with
              | some (g, rest3) =>
                  "<em>".data ++ g ++ "</em>".data ++ subSingleF m f (some m) rest3
              | none => a :: subSingleF m f (some a) rest
            else a :: subSingleF m f (some a) rest
        | [] => [a]
      else a :: subSingleF m f (some a) rest

theorem subSingleF_nil (m : Char) (f : Nat) (prev : Option Char) :
    subSingleF m f prev [] = [] := by
  cases f <;> rfl

theorem subSingleF_fuel (m : Char) :
    ∀ n l, List.length l ≤ n → ∀ (prev : Option Char) f₁ f₂,
      List.length l ≤ f₁ → List.length l ≤ f₂ →
      subSingleF m f₁ prev l = subSingleF m f₂ prev l := by
  intro n
  induction n with
  | zero =>
      intro l hl prev f₁ f₂ h₁ h₂
      have : l = [] := by cases l <;> simp_all
      subst this; simp [subSingleF_nil]
  | succ n ih =>
      intro l hl prev f₁ f₂ h₁ h₂
      match l with
      | [] => simp [subSingleF_nil]
      | a :: rest =>
        simp only [List.length_cons] at hl h₁ h₂
        match f₁, f₂ with
        | g₁ + 1, g₂ + 1 =>
          simp only [subSingleF]
          by_cases hcond : a = m ∧ prev ≠ some m ∧ rest.head? ≠ some m
          · simp only [if_pos hcond]
            match rest with
            | [] => rfl
            | c :: rest2 =>
              simp only [List.length_cons] at hl h₁ h₂
              by_cases hc : c ≠ '\n'
              · simp only [if_pos hc]
                cases hcd : closeSingle m [c] rest2 with
                | none =>
                    exact congrArg _ (ih (c :: rest2) (by simp; omega) (some a) g₁ g₂
                      (by simp; omega) (by simp; omega))
                | some p =>
                    obtain ⟨g, rest3⟩ := p
                    have hlen := closeSingle_length m g rest3 rest2 [c] hcd
                    have := ih rest3 (by omega) (some m) g₁ g₂ (by omega) (by omega)
                    simp only [this]
              · simp only [if_neg hc]
                exact congrArg _ (ih (c :: rest2) (by simp; omega) (some a) g₁ g₂
                  (by simp; omega) (by simp; omega))
          · simp only [if_neg hcond]
            exact congrArg _ (ih rest (by omega) (some a) g₁ g₂ (by omega) (by omega))

def subSingle (m : Char) (prev : Option Char) (l : List Char) : List Char :=
  subSingleF m (List.length l) prev l

theorem subSingle_nil (m : Char) (prev : Option Char) : subSingle m prev [] = [] := rfl

theorem subSingle_single (m a : Char) (prev : Option Char) :
    subSingle m prev [a] = [a] := by
  show subSingleF m 1 prev [a] = [a]
  conv_lhs => rw [subSingleF]
  by_cases hcond : a = m ∧ prev ≠ some m ∧ ([] : List Char).head? ≠ some m
  · rw [if_pos hcond]
  · rw [if_neg hcond]
    rfl

theorem subSingle_step (m a : Char) (prev : Option Char) (l : List Char)
    (h : ¬(a = m ∧ prev ≠ some m ∧ l.head? ≠ some m)) :
    subSingle m prev (a :: l) = a :: subSingle m (some a) l := by
  show subSingleF m (l.length + 1) prev (a :: l) = _
  simp only [subSingleF, if_neg h]
  rfl

theorem subSingle_open (m c : Char) (prev : Option Char) (g rest2 rest3 : List Char)
    (hprev : prev ≠ some m) (hcm : c ≠ m) (hc : c ≠ '\n')
    (hcd : closeSingle m [c] rest2 = some (g, rest3)) :
    subSingle m prev (m :: c :: rest2) =
      "<em>".data ++ g ++ "</em>".data ++ subSingle m (some m) rest3 := by
  have hlen := closeSingle_length m g rest3 rest2 [c] hcd
  show subSingleF m ((c :: rest2).length + 1) prev _ = _
  conv_lhs => rw [subSingleF]
  rw [if_pos (And.intro rfl (And.intro hprev (by simp [hcm]))), if_pos hc, hcd]
  dsimp only
  have := subSingleF_fuel m ((c :: rest2).length) rest3
    (by simp at hlen ⊢; omega) (some m) ((c :: rest2).length) rest3.length
    (by simp at hlen ⊢; omega) (le_refl _)
  rw [this]
  rfl

theorem subSingle_open_none (m c : Char) (prev : Option Char) (rest2 : List Char)
    (hprev : prev ≠ some m) (hcm : c ≠ m)
    (hcd : closeSingle m [c] rest2 = none) :
    subSingle m prev (m :: c :: rest2) = m :: subSingle m (some m) (c :: rest2) := by
  show subSingleF m ((c :: rest2).length + 1) prev _ = _
  conv_lhs => rw [subSingleF]
  rw [if_pos (And.intro rfl (And.intro hprev (by simp [hcm])))]
  by_cases hc : c ≠ '\n'
  · rw [if_pos hc, hcd]
    rfl
  · rw [if_neg hc]
    rfl

def replaceListF (p r : List Char) : Nat → List Char → List Char
  | _, [] => []
  | 0, l => l
  | f + 1, c :: rest =>
      if p.isPrefixOf (c :: rest) then r ++ replaceListF p r f ((c :: rest).drop p.length)
      else c :: replaceListF p r f rest

theorem replaceListF_nil (p r : List Char) (f : Nat) : replaceListF p r f [] = [] := by
  cases f <;> rfl

theorem replaceListF_fuel (p r : List Char) (hp : p ≠ []) :
    ∀ n l, List.length l ≤ n → ∀ f₁ f₂, List.length l ≤ f₁ → List.length l ≤ f₂ →
      replaceListF p r f₁ l = replaceListF p r f₂ l := by
  intro n
  induction n with
  | zero =>
      intro l hl f₁ f₂ h₁ h₂
      have : l = [] := by cases l <;> simp_all
      subst this; simp [replaceListF_nil]
  | succ n ih =>
      intro l hl f₁ f₂ h₁ h₂
      match l with
      | [] => simp [replaceListF_nil]
      | c :: rest =>
        simp only [List.length_cons] at hl h₁ h₂
        match f₁, f₂ with
        | g₁ + 1, g₂ + 1 =>
          simp only [replaceListF]
          by_cases hpre : p.isPrefixOf (c :: rest) = true
          · simp only [if_pos hpre]
            have hplen : 1 ≤ p.length := by
              cases p with
              | nil => exact absurd rfl hp
              | cons q qs => simp
            have hdlen : ((c :: rest).drop p.length).length ≤ n := by
              simp only [List.length_drop, List.length_cons]
              omega
            have := ih ((c :: rest).drop p.length) hdlen g₁ g₂
              (by simp only [List.length_drop, List.length_cons]; omega)
              (by simp only [List.length_drop, List.length_cons]; omega)
            rw [this]
          · simp only [if_neg hpre]
            exact congrArg _ (ih rest (by omega) g₁ g₂ (by omega) (by omega))

def replaceList (p r l : List Char) : List Char := replaceListF p r (List.length l) l

theorem replaceList_nil (p r : List Char) : replaceList p r [] = [] := rfl

theorem replaceList_pos (p r : List Char) (c : Char) (rest : List Char) (hp : p ≠ [])
    (h : p.isPrefixOf (c :: rest) = true) :
    replaceList p r (c :: rest) = r ++ replaceList p r ((c :: rest).drop p.length) := by
  show replaceListF p r (rest.length + 1) (c :: rest) = _
  simp only [replaceListF, if_pos h]
  have hplen : 1 ≤ p.length := by
    cases p with
    | nil => exact absurd rfl hp
    | cons q qs => simp
  have := replaceListF_fuel p r hp (rest.length + 1) ((c :: rest).drop p.length)
    (by simp only [List.length_drop, List.length_cons]; omega)
    rest.length ((c :: rest).drop p.length).length
    (by simp only [List.length_drop, List.length_cons]; omega) (le_refl _)
  rw [this]
  rfl

theorem replaceList_neg (p r : List Char) (c : Char) (rest : List Char)
    (h : ¬ p.isPrefixOf (c :: rest) = true) :
    replaceList p r (c :: rest) = c :: replaceList p r rest := by
  show replaceListF p r (rest.length + 1) (c :: rest) = _
  simp only [replaceListF, if_neg h]
  rfl

/-- `fmt` from build_publications.py on the character-list model: escape first,
then the four Markdown emphasis substitutions, then re-enable the four
whitelisted tag pairs that step 1 escaped. -/
def fmtL (l : List Char) : List Char :=
  let t := escL l
  let t := subDouble '*' t
  let t := subDouble '_' t
  let t := subSingle '*' none t
  let t := subSingle '_' none t
  let t := replaceList "&lt;em&gt;".data "<em>".data t
  let t := replaceList "&lt;/em&gt;".data "</em>".data t
  let t := replaceList "&lt;i&gt;".data "<em>".data t
  let t := replaceList "&lt;/i&gt;".data "</em>".data t
  let t := replaceList "&lt;strong&gt;".data "<strong>".data t
  let t := replaceList "&lt;/strong&gt;".data "</strong>".data t
  let t := replaceList "&lt;b&gt;".data "<strong>".data t
  let t := replaceList "&lt;/b&gt;".data "</strong>".data t
  t

/-- `fmt` from build_publications.py. -/
def fmt (s : String) : String := String.mk (fmtL s.data)

example : fmt "**bold** and *it*" = "<strong>bold</strong> and <em>it</em>" := by decide
example : fmt "*a*b*" = "<em>a</em>b*" := by decide
example : fmt "**" = "**" := by decide
example : fmt "a_b_c" = "a<em>b</em>c" := by decide
example : fmt "x &lt;i&gt;y" = "x &amp;lt;i&amp;gt;y" := by decide
example : fmt "x <i>y</i>" = "x <em>y</em>" := by decide
example : fmt "a<b" = "a&lt;b" := by decide

/-! Record model and fragment renderers.  A Record is one CSV row as the
program sees it: a dictionary of string fields, absent fields reading as "".
The field `section` of the CSV is called `sect` here because `section` is a
Lean keyword. -/

structure Rec where
  title : String
  sect : String
  authors : String
  status : String
  year : String
  venue : String
  paper_url : String
  paper_label : String
  slides_url : String
  doi_url : String
  bibtex : String
  media : String
  comment : String
  abstract : String
deriving DecidableEq

/-- Python `s.split(";")` on the character-list model: split on every
semicolon, keeping empty pieces. -/
def splitSemi : List Char → List (List Char)
  | [] => [[]]
  | c :: rest =>
      if c = ';' then [] :: splitSemi rest
      else
        match splitSemi rest with
        | g :: gs => (c :: g) :: gs
        | [] => [[c]]

/-- Python `item.split("|", 1)` (plus the padding `+ [""]`) from `links`:
the part before the first pipe and everything after it. -/
def splitPipe1 : List Char → List Char × List Char
  | [] => ([], [])
  | c :: rest =>
      if c = '|' then ([], rest)
      else
        let lu := splitPipe1 rest
        (c :: lu.1, lu.2)

/-- One iteration of the media loop in `links`: split the item at the first
pipe into label/url, trim both, skip the item if the label is empty, and
render a linked badge when a url is present, a plain badge otherwise. -/
def mediaPill (item : List Char) : Option String :=
  let lu := splitPipe1 item
  let label := trimL lu.1
  let url := trimL lu.2
  if label = [] then none
  else if url ≠ [] then
    some ("<a class=\x22media-pill\x22 href=\x22" ++ String.mk (escL url)
      ++ "\x22 rel=\x22noopener\x22>" ++ String.mk (escL label) ++ "</a>")
  else some ("<span class=\x22media-pill\x22>" ++ String.mk (escL label) ++ "</span>")

/-- The badges of the media control, for the already-stripped media field. -/
def mediaBadges (mediaRaw : String) : List String :=
  (splitSemi mediaRaw.data).filterMap mediaPill

/-- The media control of `links`: present only when the media field is
non-empty after stripping. -/
def mediaControl (media : String) : Option String :=
  let raw := pyStrip media
  if raw = "" then none
  else some (mediaPre ++ String.join (mediaBadges raw) ++ mediaPost)

/-- The paper-link label: `(row.get("paper_label") or "Paper").strip() or "Paper"`. -/
def paperLabel (pl : String) : String :=
  let q := pyStrip (if pl = "" then "Paper" else pl)
  if q = "" then "Paper" else q

/-- The citation body of `links`: `esc(row["bibtex"]).replace("&amp;#10;", "&#10;")`. -/
def citeBody (bibtex : String) : String :=
  String.mk (replaceList "&amp;#10;".data "&#10;".data (escL bibtex.data))

/-- `links` from build_publications.py: the link/tool cluster of one record. -/
def links (r : Rec) : String :=
  let parts : List String :=
    ["<div class=\x22links\x22>"]
    ++ (if r.paper_url ≠ "" then
          ["<a class=\x22btn\x22 href=\x22" ++ esc r.paper_url ++ "\x22 itemprop=\x22url\x22>"
            ++ esc (paperLabel r.paper_label) ++ "</a>"]
        else [])
    ++ (if r.slides_url ≠ "" then
          ["<a class=\x22btn\x22 href=\x22" ++ esc r.slides_url ++ "\x22>Slides</a>"]
        else [])
    ++ (if r.doi_url ≠ "" then
          ["<a class=\x22btn\x22 href=\x22" ++ esc r.doi_url ++ "\x22>DOI</a>"]
        else [])
    ++ (if r.bibtex ≠ "" then [citePre ++ citeBody r.bibtex ++ citePost] else [])
    ++ (match mediaControl r.media with
        | some s => [s]
        | none => [])
    ++ ["</div>"]
  String.intercalate "\n            " parts

/-- `pills` from build_publications.py: the status/year/venue badges. -/
def pills (status year venue : String) : String :=
  let out : List String :=
    (if status ≠ "" then
      ["<span class=\x22pill\x22 title=\x22Status\x22>" ++ ICON_STATUS ++ " "
        ++ esc status ++ "</span>"] else [])
    ++ (if year ≠ "" then
      ["<span class=\x22pill\x22 title=\x22Year\x22>" ++ ICON_YEAR ++ " "
        ++ esc year ++ "</span>"] else [])
    ++ (if venue ≠ "" then
      ["<span class=\x22pill\x22 title=\x22Venue\x22>" ++ esc venue ++ "</span>"] else [])
  String.intercalate "\n          " out

/-- The optional comment line of `article`. -/
def commentHtml (comment : String) : String :=
  let c := pyStrip comment
  if c = "" then "" else cmt0 ++ ICON_COMMENT ++ " " ++ esc c ++ cmt1

/-- The optional collapsible abstract of `article`:
CRLF-normalized, stripped, then rendered through `fmt`. -/
def abstractHtml (abstract : String) : String :=
  let a := pyStrip (String.mk (replaceList "\r\n".data "\n".data abstract.data))
  if a = "" then "" else abs0 ++ fmt a ++ abs1

/-- `article` from build_publications.py: the rendered fragment of one record. -/
def article (r : Rec) : String :=
  art0 ++ esc r.title ++ art1 ++ links r ++ art2
    ++ pills r.status r.year r.venue ++ art3 ++ authorsHtml r.authors ++ art4
    ++ commentHtml r.comment ++ art5 ++ abstractHtml r.abstract ++ art6

example : mediaBadges "Talk|http://x.test;NoURL" =
    ["<a class=\x22media-pill\x22 href=\x22http://x.test\x22 rel=\x22noopener\x22>Talk</a>",
     "<span class=\x22media-pill\x22>NoURL</span>"] := by decide

example : mediaBadges "|http://x.test" = [] := by decide
/-! The SHELL template of build_publications.py, split at its four placeholder
positions (JOURNAL, CONF, WORKING, OTHER, in document order).  Each inter-
placeholder segment is written as a concatenation of line-aligned chunks so
that concrete scans over it stay within kernel reduction depth. -/

def shellAc1 : String :=
  "<!DOCTYPE html>\n<html lang=\x22en\x22>\n<head>\n  <meta charset=\x22utf-8\x22 />\n  <meta name=\x22viewport\x22 content=\x22width=device-width, initial-scale=1\x22 />\n  <title>Publications \u2014 Francisco Castro</title>\n  <style>\n    :root\x7b\n      --accent:#0ea5e9; --text:#111827; --muted:#6b7280; --bg:#ffffff; --card:#f9fafb; --radius:12px;\n      --profile-img:url(\x27./assets/me.jpg\x27);\n    \x7d\n    @media (prefers-color-scheme: dark)\x7b :root\x7b --text:#e5e7eb; --muted:#9ca3af; --bg:#0b1020; --card:#0f172a; --accent:#38bdf8 \x7d \x7d\n    *\x7bbox-sizing:border-box\x7d\n    html,body\x7bmargin:0; padding:0; background:var(--bg); color:var(--text); font:15px/1.5 -apple-system,BlinkMacSystemFont,Segoe UI,Roboto,Inter,Helvetica,Arial\x7d\n    a\x7bcolor:var(--accent); text-decoration:none\x7d\n    a:hover\x7btext-decoration:underline\x7d\n\n    .wrap\x7bmax-width:860px; margin:40px auto; padding:0 18px\x7d\n    header\x7bdisplay:flex; align-items:center; justify-content:space-between; margin-bottom:22px\x7d\n    .site-title\x7bfont-weight:700; font-size:20px\x7d\n    nav\x7bdisplay:flex; gap:16px\x7d\n\n    /* Section header + toggle (collapsible) */\n    h2\x7b\n      margin:24px 0 10px; font-size:22px; line-height:1.2;\n      padding-left:8px; border-left:4px solid var(--accent);\n      display:flex; align-items:center; gap:10px;\n    \x7d\n    h2 .toggle\x7b\n      appearance:none; background:none; border:0; padding:0; margin:0;\n      font:inherit; color:inherit; cursor:pointer; display:inline-flex; align-items:center; gap:8px;\n    \x7d\n"

def shellAc2 : String :=
  "    .caret\x7b width:14px; height:14px; transition: transform .2s ease; \x7d\n    .pub-sec.collapsed .paper-list\x7b display:none; \x7d\n    .pub-sec.collapsed h2 .caret\x7b transform: rotate(-90deg); \x7d\n\n    .subtle\x7bcolor:var(--muted)\x7d\n\n    :root\x7b /* Section accent colors */\n      --accent-journal: var(--accent);\n      --accent-conference: #6366f1; /* indigo */\n      --accent-working: #f59e0b;    /* amber */\n      --accent-other: #64748b;      /* slate */\n    \x7d\n\n    /* --- Single-column compact list --- */\n    .paper-list\x7bdisplay:block; counter-reset: paper\x7d\n    .paper\x7bposition:relative; padding:10px 12px 8px 40px; margin:8px 0; border-left:3px solid var(--accent); background:transparent; border-radius:0\x7d\n    .paper::before\x7bcounter-increment: paper; content: counter(paper); position:absolute; left:8px; top:10px; width:20px; height:20px; border-radius:999px; display:grid; place-items:center; font-weight:700; font-size:12px; color:var(--text); background:var(--card); border:1px solid rgba(0,0,0,.12)\x7d\n    @media (prefers-color-scheme: dark)\x7b .paper::before\x7bborder-color:rgba(255,255,255,.18)\x7d \x7d\n    .paper + .paper\x7bborder-top:1px solid rgba(0,0,0,.06)\x7d\n    @media (prefers-color-scheme: dark)\x7b .paper + .paper\x7bborder-color:rgba(255,255,255,.08)\x7d \x7d\n\n    /* Per-section accent overrides */\n    #journal\x7b border-left-color: var(--accent-journal) \x7d\n    #journal-papers .paper\x7b border-left-color: var(--accent-journal) \x7d\n\n    #working\x7b border-left-color: var(--accent-working) \x7d\n"

def shellAc3 : String :=
  "    #working-papers .paper\x7b border-left-color: var(--accent-working) \x7d\n\n    #conference\x7b border-left-color: var(--accent-conference) \x7d\n    #conf-papers .paper\x7b border-left-color: var(--accent-conference) \x7d\n\n    #other\x7b border-left-color: var(--accent-other) \x7d\n    #other-articles .paper\x7b border-left-color: var(--accent-other) \x7d\n\n    .title-row\x7bdisplay:flex; align-items:start; gap:10px\x7d\n    .title\x7bfont-size:16.5px; font-weight:650; margin:0; line-height:1.25; flex:1\x7d\n\n    .links\x7bdisplay:flex; gap:6px; flex-wrap:wrap; align-items:center; position:relative\x7d\n    .btn\x7bdisplay:inline-flex; align-items:center; gap:6px; padding:3px 7px; border-radius:9px; font-size:12px; border:1px solid rgba(0,0,0,.10); background:#fff0\x7d\n    @media (prefers-color-scheme: dark)\x7b .btn\x7bborder-color:rgba(255,255,255,.15)\x7d \x7d\n\n    .meta\x7bdisplay:flex; flex-wrap:wrap; gap:8px; margin:4px 0 0 0; font-size:12.5px; color:var(--muted)\x7d\n    .authors\x7bmargin:2px 0 0 0; font-size:12.5px; color:var(--muted)\x7d\n\n    /* Pill + icon alignment */\n    .pill\x7b\n      display:inline-flex; align-items:center; gap:6px;\n      padding:2px 8px; line-height:1; border-radius:999px;\n      border:1px solid rgba(0,0,0,.10);\n    \x7d\n    @media (prefers-color-scheme: dark)\x7b .pill\x7bborder-color:rgba(255,255,255,.18)\x7d \x7d\n    .i\x7bwidth:14px; height:14px; display:inline-block; flex:0 0 auto; vertical-align:middle; transform:translateY(.5px)\x7d\n\n    /* Comment line */\n"

def shellAc4 : String :=
  "    .comment\x7bmargin:4px 0 0; font-size:12.5px; color:var(--muted); display:flex; align-items:center; gap:6px\x7d\n    .comment .i\x7bwidth:14px; height:14px\x7d\n\n    /* Abstract */\n    details.abstract\x7bmargin-top:6px\x7d\n    details.abstract summary\x7b\n      list-style:none; cursor:pointer; display:inline-flex; align-items:center; gap:8px;\n      user-select:none; color:var(--accent); font-weight:500; font-size:12.5px;\n    \x7d\n    details.abstract summary::-webkit-details-marker\x7bdisplay:none\x7d\n    .chev\x7bwidth:12px; height:12px; transition:transform .2s ease\x7d\n    details[open] .chev\x7btransform: rotate(90deg)\x7d\n    .abs-body\x7bmargin:6px 0 0; font-size:13px\x7d\n\n    /* Masthead */\n    .masthead\x7bdisplay:flex; align-items:center; gap:12px; padding:10px 0 8px; border-bottom:1px solid rgba(0,0,0,.06); margin-bottom:8px\x7d\n    @media (prefers-color-scheme: dark)\x7b .masthead\x7bborder-color:rgba(255,255,255,.08)\x7d \x7d\n    .avatar\x7bwidth:56px; height:56px; border-radius:999px; background:var(--profile-img) center/cover no-repeat; border:1px solid rgba(0,0,0,.12)\x7d\n    @media (prefers-color-scheme: dark)\x7b .avatar\x7bborder-color:rgba(255,255,255,.18)\x7d \x7d\n    .page-title\x7bmargin:0; font-size:18px; font-weight:750\x7d\n    .page-subtle\x7bmargin:2px 0 0 0; color:var(--muted); font-size:13.5px\x7d\n    .head-actions\x7bdisplay:none\x7d /* old \x27Show all abstracts\x27 hidden */\n\n    /* Subnav */\n    .subnav\x7bposition:sticky; top:0; background:var(--bg); z-index:5; border-bottom:1px solid rgba(0,0,0,.06); padding:8px 0; margin:6px 0 12px\x7d\n"

def shellAc5 : String :=
  "    @media (prefers-color-scheme: dark)\x7b .subnav\x7bborder-color:rgba(255,255,255,.08)\x7d \x7d\n    .subnav-inner\x7bdisplay:flex; align-items:center; gap:12px; flex-wrap:wrap\x7d\n    .subnav-name\x7bfont-weight:700; color:var(--text)\x7d\n    .subnav-links\x7bdisplay:flex; gap:6px; flex-wrap:wrap\x7d\n    .subnav a\x7bdisplay:inline-block; padding:4px 8px; border-radius:8px; font-size:13px; color:var(--muted); border:1px solid transparent\x7d\n    .subnav a:hover\x7bborder-color:rgba(0,0,0,.10); text-decoration:none\x7d\n    .subnav a.active\x7bcolor:var(--text); border-color:rgba(0,0,0,.10); background:rgba(0,0,0,.03)\x7d\n    @media (prefers-color-scheme: dark)\x7b .subnav a.active\x7bbackground:rgba(255,255,255,.06); border-color:rgba(255,255,255,.18)\x7d \x7d\n    h2\x7bscroll-margin-top:60px\x7d\n\n    /* Cite/Media dropdowns */\n    details.cite, details.media\x7bmargin-top:6px\x7d\n    details.cite summary, details.media summary\x7blist-style:none; cursor:pointer; display:inline-flex; align-items:center; gap:6px; user-select:none; color:var(--accent); font-weight:500\x7d\n    details.cite summary::-webkit-details-marker, details.media summary::-webkit-details-marker\x7bdisplay:none\x7d\n    .cite-body\x7bmargin:6px 0 0; font-size:12.5px; background:var(--card); border-radius:8px; padding:8px 10px; overflow:auto\x7d\n    .media-list\x7bdisplay:flex; flex-wrap:wrap; gap:6px; margin-top:6px\x7d\n    .media-pill\x7bdisplay:inline-flex; align-items:center; gap:6px; font-size:12px; border:1px solid rgba(0,0,0,.10); padding:3px 7px; border-radius:999px; background:#fff0\x7d\n\n"

def shellAc6 : String :=
  "    /* Inline tools */\n    .links details.tool\x7bposition:relative; display:inline-block\x7d\n    .links details.tool summary\x7bpadding:4px; border-radius:8px; border:1px solid rgba(0,0,0,.10)\x7d\n    @media (prefers-color-scheme: dark)\x7b .links details.tool summary\x7bborder-color:rgba(255,255,255,.15)\x7d \x7d\n    .links details.tool .dropdown\x7bdisplay:none; position:absolute; right:0; top:calc(100% + 6px); min-width:320px; max-width:520px; background:var(--card); border:1px solid rgba(0,0,0,.1); border-radius:10px; padding:8px 10px; box-shadow:0 6px 24px rgba(0,0,0,.08); z-index:20\x7d\n    @media (prefers-color-scheme: dark)\x7b .links details.tool .dropdown\x7bborder-color:rgba(255,255,255,.15)\x7d \x7d\n    .links details.tool[open] .dropdown\x7bdisplay:block\x7d\n    .links details.cite, .links details.media\x7bmargin-top:0\x7d\n    .links .tool .i\x7bwidth:16px; height:16px\x7d\n\n    /* Dropdown positioning helpers */\n    .links details.tool.align-left .dropdown\x7bright:auto; left:0\x7d\n    .links details.tool.full .dropdown\x7bleft:0; right:0; width:auto; max-width:none\x7d\n\n    /* Copy BibTeX button */\n    .copy-row\x7bdisplay:flex; justify-content:flex-end; margin-bottom:6px\x7d\n    .copy-btn\x7bdisplay:inline-flex; align-items:center; gap:6px; padding:3px 8px; border-radius:8px; font-size:12px; border:1px solid rgba(0,0,0,.10); background:#fff0; cursor:pointer\x7d\n    .copy-btn:hover\x7btransform:translateY(-1px)\x7d\n  </style>\n  <script>\n    window.MathJax = \x7b\n"

def shellAc7 : String :=
  "      tex: \x7b inlineMath: [[\x27$\x27,\x27$\x27], [\x27\\\\(\x27,\x27\\\\)\x27]], displayMath: [[\x27$$\x27,\x27$$\x27], [\x27\\\\[\x27,\x27\\\\]\x27]], processEscapes: true \x7d,\n      options: \x7b skipHtmlTags: [\x27script\x27,\x27noscript\x27,\x27style\x27,\x27textarea\x27,\x27pre\x27,\x27code\x27] \x7d\n    \x7d;\n  </script>\n  <script async src=\x22https://cdn.jsdelivr.net/npm/mathjax@3/es5/tex-chtml.js\x22></script>\n</head>\n<body>\n  <div class=\x22wrap\x22>\n    <header>\n      <div class=\x22site-title\x22>Francisco Castro</div>\n      <nav>\n        <a href=\x22./index.html\x22>Home</a>\n        <a href=\x22./publications.html\x22 aria-current=\x22page\x22>Publications</a>\n        <a href=\x22./teaching.html\x22>Teaching</a>\n        <a href=\x22./cv.html\x22>CV</a>\n      </nav>\n    </header>\n\n    <section class=\x22masthead\x22 role=\x22region\x22 aria-label=\x22Page header\x22>\n      <div class=\x22avatar\x22 aria-hidden=\x22true\x22></div>\n      <div>\n        <h1 class=\x22page-title\x22>Publications</h1>\n        <p class=\x22page-subtle\x22>Browse my research: journal papers, conference proceedings, and working papers.</p>\n      </div>\n    </section>\n\n    <nav class=\x22subnav\x22 aria-label=\x22Publications sections\x22>\n      <div class=\x22subnav-inner\x22>\n        <div class=\x22subnav-links\x22>\n          <a href=\x22#journal\x22>Journal Papers</a>\n          <a href=\x22#conference\x22>Conference Proceedings</a>\n          <a href=\x22#working\x22>Working Papers</a>\n          <a href=\x22#other\x22>Other Articles</a>\n        </div>\n      </div>\n    </nav>\n\n    <section class=\x22pub-sec\x22 data-sec=\x22journal\x22>\n      <h2 id=\x22journal\x22>\n"

def shellAc8 : String :=
  "        <button class=\x22toggle\x22 aria-expanded=\x22true\x22 aria-controls=\x22journal-papers\x22>\n          <svg class=\x22caret\x22 viewBox=\x220 0 24 24\x22 fill=\x22none\x22 stroke=\x22currentColor\x22 stroke-width=\x222\x22\n               stroke-linecap=\x22round\x22 stroke-linejoin=\x22round\x22 aria-hidden=\x22true\x22>\n            <path d=\x22M6 9l6 6 6-6\x22/>\n          </svg>\n          Journal Papers\n        </button>\n      </h2>\n      <div class=\x22paper-list\x22 id=\x22journal-papers\x22>\n"

def shellA : String := shellAc1 ++ shellAc2 ++ shellAc3 ++ shellAc4 ++ shellAc5 ++ shellAc6 ++ shellAc7 ++ shellAc8

def shellBc1 : String :=
  "\n      </div>\n    </section>\n\n\n\n    <section class=\x22pub-sec\x22 data-sec=\x22conference\x22>\n      <h2 id=\x22conference\x22>\n        <button class=\x22toggle\x22 aria-expanded=\x22true\x22 aria-controls=\x22conf-papers\x22>\n          <svg class=\x22caret\x22 viewBox=\x220 0 24 24\x22 fill=\x22none\x22 stroke=\x22currentColor\x22 stroke-width=\x222\x22\n               stroke-linecap=\x22round\x22 stroke-linejoin=\x22round\x22 aria-hidden=\x22true\x22>\n            <path d=\x22M6 9l6 6 6-6\x22/>\n          </svg>\n          Conference Proceedings\n        </button>\n      </h2>\n      <div class=\x22paper-list\x22 id=\x22conf-papers\x22>\n"

def shellB : String := shellBc1

def shellCc1 : String :=
  "\n      </div>\n    </section>\n\n    <section class=\x22pub-sec\x22 data-sec=\x22working\x22>\n      <h2 id=\x22working\x22>\n        <button class=\x22toggle\x22 aria-expanded=\x22true\x22 aria-controls=\x22working-papers\x22>\n          <svg class=\x22caret\x22 viewBox=\x220 0 24 24\x22 fill=\x22none\x22 stroke=\x22currentColor\x22 stroke-width=\x222\x22\n               stroke-linecap=\x22round\x22 stroke-linejoin=\x22round\x22 aria-hidden=\x22true\x22>\n            <path d=\x22M6 9l6 6 6-6\x22/>\n          </svg>\n          Working Papers\n        </button>\n      </h2>\n      <div class=\x22paper-list\x22 id=\x22working-papers\x22>\n"

def shellC : String := shellCc1

def shellDc1 : String :=
  "\n      </div>\n    </section>\n\n    <section class=\x22pub-sec\x22 data-sec=\x22other\x22>\n      <h2 id=\x22other\x22>\n        <button class=\x22toggle\x22 aria-expanded=\x22true\x22 aria-controls=\x22other-articles\x22>\n          <svg class=\x22caret\x22 viewBox=\x220 0 24 24\x22 fill=\x22none\x22 stroke=\x22currentColor\x22 stroke-width=\x222\x22\n               stroke-linecap=\x22round\x22 stroke-linejoin=\x22round\x22 aria-hidden=\x22true\x22>\n            <path d=\x22M6 9l6 6 6-6\x22/>\n          </svg>\n          Other Articles\n        </button>\n      </h2>\n      <div class=\x22paper-list\x22 id=\x22other-articles\x22>\n"

def shellD : String := shellDc1

def shellEc1 : String :=
  "\n      </div>\n    </section>\n\n  </div>\n\n  <script>\n    // Highlight current section in subnav as you scroll\n    (function()\x7b\n      const ids = [\x27journal\x27,\x27conference\x27,\x27working\x27,\x27other\x27];\n      const linkFor = id => document.querySelector(\x27.subnav a[href=\x22#\x27+id+\x27\x22]\x27);\n      const links = new Map(ids.map(id => [id, linkFor(id)]));\n      const obs = new IntersectionObserver((entries)=>\x7b\n        entries.forEach(e => \x7b\n          if (e.isIntersecting) \x7b\n            links.forEach(a => a && a.classList.remove(\x27active\x27));\n            const a = links.get(e.target.id);\n            if (a) a.classList.add(\x27active\x27);\n          \x7d\n        \x7d);\n      \x7d, \x7b rootMargin: \x27-55% 0px -40% 0px\x27, threshold: 0.01 \x7d);\n      ids.forEach(id => \x7b const el = document.getElementById(id); if (el) obs.observe(el); \x7d);\n    \x7d)();\n  </script>\n  <script>\n    // Close Cite/Media dropdowns when clicking outside or pressing Esc\n    (function()\x7b\n      function closeAllExcept(target)\x7b\n        document.querySelectorAll(\x27.links details.tool[open]\x27).forEach(d => \x7b\n          if (!target || !d.contains(target)) d.removeAttribute(\x27open\x27);\n        \x7d);\n      \x7d\n      document.addEventListener(\x27click\x27, function(e)\x7b closeAllExcept(e.target); \x7d);\n      document.addEventListener(\x27keydown\x27, function(e)\x7b if (e.key === \x27Escape\x27) closeAllExcept(null); \x7d);\n    \x7d)();\n  </script>\n  <script>\n    (function()\x7b\n      // Media (n) badge\n      document.querySelectorAll(\x27.links details.media\x27).forEach(function(det)\x7b\n"

def shellEc2 : String :=
  "        var count = det.querySelectorAll(\x27.media-list a\x27).length;\n        var label = det.querySelector(\x27summary span\x27);\n        if (label) \x7b label.textContent = count ? \x27Media (\x27+count+\x27)\x27 : \x27Media\x27; \x7d\n      \x7d);\n\n      // Copy BibTeX button\n      document.querySelectorAll(\x27.links details.cite\x27).forEach(function(det)\x7b\n        var drop = det.querySelector(\x27.dropdown\x27); if (!drop) return;\n        if (!drop.querySelector(\x27.copy-row\x27))\x7b\n          var row = document.createElement(\x27div\x27); row.className=\x27copy-row\x27;\n          var btn = document.createElement(\x27button\x27); btn.type=\x27button\x27; btn.className=\x27copy-btn\x27; btn.textContent=\x27Copy\x27;\n          row.appendChild(btn); drop.insertBefore(row, drop.firstChild);\n          btn.addEventListener(\x27click\x27, function()\x7b\n            var pre = drop.querySelector(\x27pre\x27); var txt = pre ? pre.innerText : \x27\x27;\n            if (navigator.clipboard && navigator.clipboard.writeText)\x7b\n              navigator.clipboard.writeText(txt).then(function()\x7b var prev=btn.textContent; btn.textContent=\x27Copied!\x27; setTimeout(function()\x7b btn.textContent=prev;\x7d, 1200); \x7d);\n            \x7d\n          \x7d);\n        \x7d\n      \x7d);\n\n      // Smarter overlay positioning on open\n      function positionDropdown(det)\x7b\n        det.classList.remove(\x27align-left\x27,\x27full\x27);\n        var drop = det.querySelector(\x27.dropdown\x27); if (!drop) return;\n        var rect = drop.getBoundingClientRect();\n        var vw = Math.max(document.documentElement.clientWidth, window.innerWidth || 0);\n"

def shellEc3 : String :=
  "        if (rect.right > vw - 8) det.classList.add(\x27align-left\x27);\n        if (rect.width > vw * 0.92 || vw < 500) det.classList.add(\x27full\x27);\n      \x7d\n      document.querySelectorAll(\x27.links details.tool\x27).forEach(function(det)\x7b\n        det.addEventListener(\x27toggle\x27, function()\x7b if (det.open) positionDropdown(det); \x7d);\n      \x7d);\n      window.addEventListener(\x27resize\x27, function()\x7b\n        document.querySelectorAll(\x27.links details.tool[open]\x27).forEach(positionDropdown);\n      \x7d);\n    \x7d)();\n  </script>\n  <script>\n    // Collapsible sections (expanded by default)\n    (function()\x7b\n      document.querySelectorAll(\x27.pub-sec\x27).forEach(function(sec)\x7b\n        var btn  = sec.querySelector(\x27h2 .toggle\x27);\n        var list = sec.querySelector(\x27.paper-list\x27);\n        if (!btn || !list) return;\n\n        // Ensure expanded on load\n        sec.classList.remove(\x27collapsed\x27);\n        list.hidden = false;\n        btn.setAttribute(\x27aria-expanded\x27, \x27true\x27);\n\n        btn.addEventListener(\x27click\x27, function()\x7b\n          var collapsed = sec.classList.toggle(\x27collapsed\x27);\n          list.hidden = collapsed;\n          btn.setAttribute(\x27aria-expanded\x27, String(!collapsed));\n        \x7d);\n      \x7d);\n    \x7d)();\n  </script>\n</body>\n</html>\n"

def shellE : String := shellEc1 ++ shellEc2 ++ shellEc3

def phJOURNAL : String := "\x7b\x7bJOURNAL_ITEMS\x7d\x7d"

def phCONF : String := "\x7b\x7bCONF_ITEMS\x7d\x7d"

def phWORKING : String := "\x7b\x7bWORKING_ITEMS\x7d\x7d"

def phOTHER : String := "\x7b\x7bOTHER_ITEMS\x7d\x7d"

/-- The SHELL document template of build_publications.py. -/
def SHELL : String :=
  shellA ++ phJOURNAL ++ shellB ++ phCONF ++ shellC ++ phWORKING ++ shellD
    ++ phOTHER ++ shellE

/-! The bucketing and assembly logic of `main`. -/

/-- The four buckets of `main`, in the dict's insertion order. -/
structure Buckets where
  journal : List String
  working : List String
  conference : List String
  other : List String
deriving DecidableEq

def emptyBuckets : Buckets := ⟨[], [], [], []⟩

/-- One iteration of the bucketing loop of `main`:
`buckets[normalize_section(r.get("section",""))].append(article(r))`. -/
def addArticle (b : Buckets) (r : Rec) : Buckets :=
  let k := normalize_section r.sect
  if k = "journal" then { b with journal := b.journal ++ [article r] }
  else if k = "working" then { b with working := b.working ++ [article r] }
  else if k = "conference" then { b with conference := b.conference ++ [article r] }
  else { b with other := b.other ++ [article r] }

/-- The bucketing loop of `main` (input order preserved inside each bucket). -/
def assignBuckets (rows : List Rec) : Buckets := rows.foldl addArticle emptyBuckets

/-- Buckets as `main` renders them: each bucket reversed once, in place. -/
def bucketsOf (rows : List Rec) : Buckets :=
  let b := assignBuckets rows
  ⟨b.journal.reverse, b.working.reverse, b.conference.reverse, b.other.reverse⟩

/-- `"\n".join(bucket) or "\n"` from `main`. -/
def itemsStr (items : List String) : String :=
  let s := String.intercalate "\n" items
  if s = "" then "\n" else s

/-- The four placeholder substitutions of `main`, in source order
(JOURNAL, WORKING, CONF, OTHER), on the character-list model. -/
def htmlOutL (rows : List Rec) : List Char :=
  let bs := bucketsOf rows
  let t := SHELL.data
  let t := replaceList phJOURNAL.data (itemsStr bs.journal).data t
  let t := replaceList phWORKING.data (itemsStr bs.working).data t
  let t := replaceList phCONF.data (itemsStr bs.conference).data t
  let t := replaceList phOTHER.data (itemsStr bs.other).data t
  t

/-- The assembled output document of `main`. -/
def htmlOut (rows : List Rec) : String := String.mk (htmlOutL rows)

/-- `sum(len(v) for v in buckets.values())`, the count printed by `main`. -/
def itemCount (b : Buckets) : Nat :=
  b.journal.length + b.working.length + b.conference.length + b.other.length

/-- Abstract state of the world as `main` observes it: the input CSV (None when
the file is absent, otherwise the decoded row list) and the current content of
the output file (None when absent). -/
structure SysState where
  csv : Option (List Rec)
  out : Option String

/-- Observable outcome of one run of `main`. -/
structure RunResult where
  exitCode : Nat
  stderrLines : List String
  stdoutCount : Option Nat
  finalOut : Option String
deriving DecidableEq

/-- `main` from build_publications.py over the abstract state: a missing CSV
writes the two-line diagnostic to stderr and exits 1 before touching the
output; otherwise the page is assembled, written (overwriting any previous
content), and the item-count summary is printed.  The CSV decoding layer
(`read_rows`) is abstracted as the decoded record list; the summary's output
path string is abstracted to its item count. -/
def mainRun (st : SysState) : RunResult :=
  match st.csv with
  | none =>
      { exitCode := 1
        stderrLines :=
          ["ERROR: publications.csv not found next to build_publications.py",
           "Create the CSV (see template) and run again."]
        stdoutCount := none
        finalOut := st.out }
  | some rows =>
      { exitCode := 0
        stderrLines := []
        stdoutCount := some (itemCount (bucketsOf rows))
        finalOut := some (htmlOut rows) }

/-! General helper lemmas. -/

theorem prefixOfIff {l₁ l₂ : List Char} : l₁.isPrefixOf l₂ = true ↔ l₁ <+: l₂ :=
  List.isPrefixOf_iff_prefix

theorem isPrefixOf_head {c : Char} {p l : List Char} (h : (c :: p).isPrefixOf l = true) :
    ∃ rest, l = c :: rest := by
  cases l with
  | nil => simp [List.isPrefixOf] at h
  | cons d rest =>
      simp [List.isPrefixOf] at h
      exact ⟨rest, by rw [h.1]⟩

theorem with_ne_solo (x : String) : "with " ++ x ≠ "solo" := by
  intro h
  have hd := congrArg String.data h
  rw [String.data_append] at hd
  have := congrArg List.length hd
  simp at this

/-- Claim C2: section normalization first strips and lowercases, then maps by
prefix: `jour`→journal, `work`→working, `conf`→conference, everything else
(including the empty string) to other; in particular "Journal Article"→journal,
"conf."→conference, "Working Paper"→working, "misc"→other. -/
theorem C2_section_normalization :
    (∀ s : String, "jour".data.isPrefixOf (lowerL (trimL s.data)) = true →
        normalize_section s = "journal")
    ∧ (∀ s : String, "work".data.isPrefixOf (lowerL (trimL s.data)) = true →
        normalize_section s = "working")
    ∧ (∀ s : String, "conf".data.isPrefixOf (lowerL (trimL s.data)) = true →
        normalize_section s = "conference")
    ∧ (∀ s : String, ¬"jour".data.isPrefixOf (lowerL (trimL s.data)) = true →
        ¬"work".data.isPrefixOf (lowerL (trimL s.data)) = true →
        ¬"conf".data.isPrefixOf (lowerL (trimL s.data)) = true →
        normalize_section s = "other")
    ∧ normalize_section "Journal Article" = "journal"
    ∧ normalize_section "conf." = "conference"
    ∧ normalize_section "Working Paper" = "working"
    ∧ normalize_section "misc" = "other"
    ∧ normalize_section "" = "other" := by
  refine ⟨?_, ?_, ?_, ?_, by decide, by decide, by decide, by decide, by decide⟩
  · intro s h
    simp only [normalize_section]
    rw [if_pos h]
  · intro s h
    have hj : ¬"jour".data.isPrefixOf (lowerL (trimL s.data)) = true := by
      intro hj
      obtain ⟨r₁, hr₁⟩ := isPrefixOf_head hj
      obtain ⟨r₂, hr₂⟩ := isPrefixOf_head h
      rw [hr₁] at hr₂
      exact absurd (List.head_eq_of_cons_eq hr₂) (by decide)
    simp only [normalize_section]
    rw [if_neg hj, if_pos h]
  · intro s h
    have hj : ¬"jour".data.isPrefixOf (lowerL (trimL s.data)) = true := by
      intro hj
      obtain ⟨r₁, hr₁⟩ := isPrefixOf_head hj
      obtain ⟨r₂, hr₂⟩ := isPrefixOf_head h
      rw [hr₁] at hr₂
      exact absurd (List.head_eq_of_cons_eq hr₂) (by decide)
    have hw : ¬"work".data.isPrefixOf (lowerL (trimL s.data)) = true := by
      intro hw
      obtain ⟨r₁, hr₁⟩ := isPrefixOf_head hw
      obtain ⟨r₂, hr₂⟩ := isPrefixOf_head h
      rw [hr₁] at hr₂
      exact absurd (List.head_eq_of_cons_eq hr₂) (by decide)
    simp only [normalize_section]
    rw [if_neg hj, if_neg hw, if_pos h]
  · intro s hj hw hc
    simp only [normalize_section]
    rw [if_neg hj, if_neg hw, if_neg hc]

/-- Witness for C2 at a concrete input, discharging the prefix hypothesis. -/
theorem C2_section_normalization_witness : normalize_section "Journal Article" = "journal" :=
  C2_section_normalization.1 "Journal Article" (by decide)

/-- Counterexample to claim C7 as frozen: `authors = "SOLO"` renders the solo
marker although the trimmed field is neither empty nor the literal "solo"
(the code compares case-insensitively). -/
theorem C7_solo_counterexample :
    authorsHtml "SOLO" = "solo"
    ∧ ¬(pyStrip "SOLO" = "" ∨ pyStrip "SOLO" = "solo") := by decide

/-- Claim C7 (amended): the authorship line renders the solo marker exactly
when the stripped authors field is empty or equals "solo" case-insensitively
(its lowercasing is "solo"); otherwise it renders as `with ` followed by the
escaped stripped authors text. -/
theorem C7_solo_amended :
    ∀ s : String,
      (authorsHtml s = "solo" ↔
        (trimL s.data = [] ∨ lowerL (trimL s.data) = "solo".data))
      ∧ (¬(trimL s.data = [] ∨ lowerL (trimL s.data) = "solo".data) →
          authorsHtml s = "with " ++ String.mk (escL (trimL s.data))) := by
  intro s
  simp only [authorsHtml]
  by_cases h : trimL s.data = [] ∨ String.mk (lowerL (trimL s.data)) = "solo"
  · rw [if_pos h]
    constructor
    · constructor
      · intro _
        rcases h with h | h
        · exact Or.inl h
        · exact Or.inr (congrArg String.data h)
      · intro _; rfl
    · intro hn
      exfalso
      apply hn
      rcases h with h | h
      · exact Or.inl h
      · exact Or.inr (congrArg String.data h)
  · rw [if_neg h]
    constructor
    · constructor
      · intro hw
        exact absurd hw (with_ne_solo _)
      · intro hor
        exfalso
        apply h
        rcases hor with h1 | h1
        · exact Or.inl h1
        · exact Or.inr (congrArg String.mk h1)
    · intro _; rfl

/-- Witness for C7's amended theorem at a concrete input. -/
theorem C7_solo_amended_witness :
    authorsHtml "A. Coauthor" = "with " ++ String.mk (escL (trimL "A. Coauthor".data)) :=
  (C7_solo_amended "A. Coauthor").2 (by decide)

theorem splitPipe1_no_pipe (l : List Char) (h : '|' ∉ l) : splitPipe1 l = (l, []) := by
  induction l with
  | nil => rfl
  | cons c rest ih =>
      simp only [List.mem_cons] at h
      push_neg at h
      simp only [splitPipe1]
      rw [if_neg (fun hc => h.1 hc.symm), ih h.2]

theorem splitPipe1_pipe (label url : List Char) (h : '|' ∉ label) :
    splitPipe1 (label ++ '|' :: url) = (label, url) := by
  induction label with
  | nil => simp [splitPipe1]
  | cons c rest ih =>
      simp only [List.mem_cons] at h
      push_neg at h
      simp only [List.cons_append, splitPipe1, List.append_eq]
      rw [if_neg (fun hc => h.1 hc.symm), ih h.2]

theorem splitSemi_ne_nil (l : List Char) : splitSemi l ≠ [] := by
  cases l with
  | nil => simp [splitSemi]
  | cons c rest =>
      simp only [splitSemi]
      by_cases hc : c = ';'
      · rw [if_pos hc]; simp
      · rw [if_neg hc]
        cases h : splitSemi rest with
        | nil => simp
        | cons g gs => simp

theorem splitSemi_append (a b : List Char) (h : ';' ∉ a) :
    splitSemi (a ++ ';' :: b) = a :: splitSemi b := by
  induction a with
  | nil => simp [splitSemi]
  | cons c rest ih =>
      simp only [List.mem_cons] at h
      push_neg at h
      simp only [List.cons_append, splitSemi, List.append_eq]
      rw [if_neg (fun hc => h.1 hc.symm), ih h.2]

/-- Claim C8: the media control renders only for a media field non-empty after
stripping; the field splits on `;` into items and each item at its first `|`
into label/url (both stripped); empty-label items are skipped; items with a
url render as linked badges and items without as plain badges — with the two
concrete behaviours of the spec. -/
theorem C8_media_parsing :
    (∀ m : String, (mediaControl m).isSome = true ↔ pyStrip m ≠ "")
    ∧ mediaBadges "Talk|http://x.test;NoURL" =
        ["<a class=\x22media-pill\x22 href=\x22http://x.test\x22 rel=\x22noopener\x22>Talk</a>",
         "<span class=\x22media-pill\x22>NoURL</span>"]
    ∧ mediaBadges "|http://x.test" = []
    ∧ (∀ mediaRaw : String, mediaBadges mediaRaw =
        (splitSemi mediaRaw.data).filterMap mediaPill)
    ∧ (∀ a b : List Char, ';' ∉ a → splitSemi (a ++ ';' :: b) = a :: splitSemi b)
    ∧ (∀ item : List Char, trimL (splitPipe1 item).1 = [] → mediaPill item = none)
    ∧ (∀ label url : List Char, '|' ∉ label → trimL label ≠ [] → trimL url ≠ [] →
        mediaPill (label ++ '|' :: url) =
          some ("<a class=\x22media-pill\x22 href=\x22" ++ String.mk (escL (trimL url))
            ++ "\x22 rel=\x22noopener\x22>" ++ String.mk (escL (trimL label)) ++ "</a>"))
    ∧ (∀ label url : List Char, '|' ∉ label → trimL label ≠ [] → trimL url = [] →
        mediaPill (label ++ '|' :: url) =
          some ("<span class=\x22media-pill\x22>" ++ String.mk (escL (trimL label)) ++ "</span>"))
    ∧ (∀ label : List Char, '|' ∉ label → trimL label ≠ [] →
        mediaPill label =
          some ("<span class=\x22media-pill\x22>" ++ String.mk (escL (trimL label)) ++ "</span>")) := by
  refine ⟨?_, by decide, by decide, fun _ => rfl, splitSemi_append, ?_, ?_, ?_, ?_⟩
  · intro m
    simp only [mediaControl]
    by_cases h : pyStrip m = ""
    · rw [if_pos h]; simp [h]
    · rw [if_neg h]; simp [h]
  · intro item h
    simp only [mediaPill]
    rw [if_pos h]
  · intro label url hp hl hu
    simp only [mediaPill, splitPipe1_pipe label url hp]
    rw [if_neg hl, if_pos hu]
  · intro label url hp hl hu
    simp only [mediaPill, splitPipe1_pipe label url hp]
    rw [if_neg hl, if_neg (by simp [hu])]
  · intro label hp hl
    simp only [mediaPill, splitPipe1_no_pipe label hp]
    rw [if_neg hl, if_neg (by simp [trimL])]

/-- Witness for C8 at concrete inputs, discharging the hypotheses. -/
theorem C8_media_parsing_witness :
    mediaPill ("Talk".data ++ '|' :: "http://x.test".data) =
      some ("<a class=\x22media-pill\x22 href=\x22"
        ++ String.mk (escL (trimL "http://x.test".data))
        ++ "\x22 rel=\x22noopener\x22>" ++ String.mk (escL (trimL "Talk".data)) ++ "</a>") :=
  C8_media_parsing.2.2.2.2.2.2.1 "Talk".data "http://x.test".data
    (by decide) (by decide) (by decide)

theorem normalize_section_range (s : String) :
    normalize_section s = "journal" ∨ normalize_section s = "working"
    ∨ normalize_section s = "conference" ∨ normalize_section s = "other" := by
  simp only [normalize_section]
  split_ifs <;> simp

/-- The bucket predicate induced by `normalize_section`. -/
def inSection (k : String) (r : Rec) : Bool := normalize_section r.sect == k

theorem assignAux_spec (rows : List Rec) : ∀ b₀ : Buckets,
    (rows.foldl addArticle b₀).journal
      = b₀.journal ++ (rows.filter (inSection "journal")).map article
    ∧ (rows.foldl addArticle b₀).working
      = b₀.working ++ (rows.filter (inSection "working")).map article
    ∧ (rows.foldl addArticle b₀).conference
      = b₀.conference ++ (rows.filter (inSection "conference")).map article
    ∧ (rows.foldl addArticle b₀).other
      = b₀.other ++ (rows.filter (inSection "other")).map article := by
  induction rows with
  | nil => intro b₀; simp
  | cons r rows ih =>
      intro b₀
      simp only [List.foldl_cons]
      obtain ⟨h1, h2, h3, h4⟩ := ih (addArticle b₀ r)
      rcases normalize_section_range r.sect with hk | hk | hk | hk <;>
        refine ⟨?_, ?_, ?_, ?_⟩ <;>
        simp only [h1, h2, h3, h4] <;>
        simp [addArticle, hk, inSection, List.filter_cons]

theorem filter_four_length (rows : List Rec) :
    (rows.filter (inSection "journal")).length
    + (rows.filter (inSection "working")).length
    + (rows.filter (inSection "conference")).length
    + (rows.filter (inSection "other")).length = rows.length := by
  induction rows with
  | nil => rfl
  | cons r rows ih =>
      rcases normalize_section_range r.sect with hk | hk | hk | hk <;>
        simp [List.filter_cons, inSection, hk] <;> omega

/-- Claim C3: every record's fragment lands in exactly one of the four buckets
(its section predicate holds for exactly one bucket, and each bucket holds
exactly the matching records' fragments), the bucket sizes sum to the number of
input rows, and that total is the count printed in the success summary. -/
theorem C3_partition_count :
    ∀ rows : List Rec,
      itemCount (bucketsOf rows) = rows.length
      ∧ (∀ r : Rec,
          ((if inSection "journal" r then 1 else 0)
            + (if inSection "working" r then 1 else 0)
            + (if inSection "conference" r then 1 else 0)
            + (if inSection "other" r then 1 else 0) : Nat) = 1)
      ∧ (bucketsOf rows).journal.length = (rows.filter (inSection "journal")).length
      ∧ (bucketsOf rows).working.length = (rows.filter (inSection "working")).length
      ∧ (bucketsOf rows).conference.length = (rows.filter (inSection "conference")).length
      ∧ (bucketsOf rows).other.length = (rows.filter (inSection "other")).length
      ∧ (∀ o : Option String,
          (mainRun ⟨some rows, o⟩).stdoutCount = some rows.length) := by
  intro rows
  obtain ⟨h1, h2, h3, h4⟩ := assignAux_spec rows emptyBuckets
  have hj : (bucketsOf rows).journal.length = (rows.filter (inSection "journal")).length := by
    simp only [bucketsOf, assignBuckets]
    simp only [h1]
    simp [emptyBuckets]
  have hw : (bucketsOf rows).working.length = (rows.filter (inSection "working")).length := by
    simp only [bucketsOf, assignBuckets]
    simp only [h2]
    simp [emptyBuckets]
  have hc : (bucketsOf rows).conference.length = (rows.filter (inSection "conference")).length := by
    simp only [bucketsOf, assignBuckets]
    simp only [h3]
    simp [emptyBuckets]
  have ho : (bucketsOf rows).other.length = (rows.filter (inSection "other")).length := by
    simp only [bucketsOf, assignBuckets]
    simp only [h4]
    simp [emptyBuckets]
  have hcount : itemCount (bucketsOf rows) = rows.length := by
    simp only [itemCount, hj, hw, hc, ho]
    have := filter_four_length rows
    omega
  refine ⟨hcount, ?_, hj, hw, hc, ho, ?_⟩
  · intro r
    rcases normalize_section_range r.sect with hk | hk | hk | hk <;>
      simp [inSection, hk]
  · intro o
    simp [mainRun, hcount]

/-- Witness for C3 at a concrete record list. -/
theorem C3_partition_count_witness :
    itemCount (bucketsOf [⟨"T", "journal", "", "", "", "", "", "", "", "", "", "", "", ""⟩])
      = 1 :=
  (C3_partition_count [⟨"T", "journal", "", "", "", "", "", "", "", "", "", "", "", ""⟩]).1

/-- Claim C4: inside each bucket, assignment preserves input order and the
bucket is then reversed exactly once, so the displayed order within a section
is the exact reverse of the input row order; in particular three same-section
records A, B, C render as C, B, A. -/
theorem C4_reverse_order :
    (∀ rows : List Rec,
      (bucketsOf rows).journal = ((rows.filter (inSection "journal")).map article).reverse
      ∧ (bucketsOf rows).working = ((rows.filter (inSection "working")).map article).reverse
      ∧ (bucketsOf rows).conference
          = ((rows.filter (inSection "conference")).map article).reverse
      ∧ (bucketsOf rows).other = ((rows.filter (inSection "other")).map article).reverse)
    ∧ (∀ a b c : Rec,
        inSection "journal" a = true → inSection "journal" b = true →
        inSection "journal" c = true →
        (bucketsOf [a, b, c]).journal = [article c, article b, article a]) := by
  have hmain : ∀ rows : List Rec,
      (bucketsOf rows).journal = ((rows.filter (inSection "journal")).map article).reverse
      ∧ (bucketsOf rows).working = ((rows.filter (inSection "working")).map article).reverse
      ∧ (bucketsOf rows).conference
          = ((rows.filter (inSection "conference")).map article).reverse
      ∧ (bucketsOf rows).other = ((rows.filter (inSection "other")).map article).reverse := by
    intro rows
    obtain ⟨h1, h2, h3, h4⟩ := assignAux_spec rows emptyBuckets
    refine ⟨?_, ?_, ?_, ?_⟩ <;>
      · simp only [bucketsOf, assignBuckets]
        simp only [h1, h2, h3, h4]
        simp [emptyBuckets]
  refine ⟨hmain, ?_⟩
  intro a b c ha hb hc
  have := (hmain [a, b, c]).1
  rw [this]
  simp [List.filter_cons, ha, hb, hc]

/-- Witness for C4's three-record part at concrete records. -/
theorem C4_reverse_order_witness :
    (bucketsOf [⟨"A", "journal", "", "", "", "", "", "", "", "", "", "", "", ""⟩,
                ⟨"B", "journal", "", "", "", "", "", "", "", "", "", "", "", ""⟩,
                ⟨"C", "journal", "", "", "", "", "", "", "", "", "", "", "", ""⟩]).journal
      = [article ⟨"C", "journal", "", "", "", "", "", "", "", "", "", "", "", ""⟩,
         article ⟨"B", "journal", "", "", "", "", "", "", "", "", "", "", "", ""⟩,
         article ⟨"A", "journal", "", "", "", "", "", "", "", "", "", "", "", ""⟩] :=
  C4_reverse_order.2 _ _ _ (by decide) (by decide) (by decide)

/-- Claim C5: a missing input CSV makes the run fail before any output is
written — two diagnostic lines on stderr, non-zero exit status, pre-existing
output untouched — and this is the only fatal condition: with the CSV present,
every decoded record list runs to exit status 0 with empty stderr (section
normalization, field defaulting and media parsing are total). -/
theorem C5_missing_input :
    ∀ st : SysState,
      (st.csv = none →
        (mainRun st).exitCode ≠ 0
        ∧ (mainRun st).stderrLines =
            ["ERROR: publications.csv not found next to build_publications.py",
             "Create the CSV (see template) and run again."]
        ∧ (mainRun st).stderrLines.length = 2
        ∧ (mainRun st).finalOut = st.out
        ∧ (mainRun st).stdoutCount = none)
      ∧ (∀ rows : List Rec, st.csv = some rows →
          (mainRun st).exitCode = 0
          ∧ (mainRun st).stderrLines = []
          ∧ (mainRun st).finalOut = some (htmlOut rows)) := by
  intro st
  constructor
  · intro h
    cases hc : st.csv with
    | none => simp [mainRun, hc]
    | some rows => rw [hc] at h; exact absurd h (by simp)
  · intro rows h
    cases hc : st.csv with
    | none => rw [hc] at h; exact absurd h (by simp)
    | some rows' =>
        rw [hc] at h
        obtain rfl : rows' = rows := by injection h
        simp [mainRun, hc]

/-- Witness for C5 at concrete states, discharging both hypotheses. -/
theorem C5_missing_input_witness :
    (mainRun ⟨none, some "old page"⟩).exitCode ≠ 0
    ∧ (mainRun ⟨none, some "old page"⟩).finalOut = some "old page"
    ∧ (mainRun ⟨some [], none⟩).exitCode = 0 :=
  ⟨((C5_missing_input ⟨none, some "old page"⟩).1 rfl).1,
   ((C5_missing_input ⟨none, some "old page"⟩).1 rfl).2.2.2.1,
   ((C5_missing_input ⟨some [], none⟩).2 [] rfl).1⟩

theorem not_isPrefixOf_of_head_ne {q c : Char} {p' rest : List Char} (h : c ≠ q) :
    ¬(q :: p').isPrefixOf (c :: rest) = true := by
  simp [List.isPrefixOf]
  intro hq
  exact absurd hq.symm h

theorem replaceList_skip (q : Char) (p' r : List Char) :
    ∀ u z : List Char, (∀ c ∈ u, c ≠ q) →
      replaceList (q :: p') r (u ++ z) = u ++ replaceList (q :: p') r z := by
  intro u
  induction u with
  | nil => intro z _; simp
  | cons c rest ih =>
      intro z h
      simp only [List.cons_append]
      rw [replaceList_neg _ _ _ _ (not_isPrefixOf_of_head_ne (h c (by simp)))]
      rw [ih z (fun d hd => h d (by simp [hd]))]

theorem replaceList_match (p r z : List Char) (hp : p ≠ []) :
    replaceList p r (p ++ z) = r ++ replaceList p r z := by
  match p with
  | q :: p' =>
      simp only [List.cons_append]
      rw [replaceList_pos (q :: p') r q (p' ++ z) hp
        (prefixOfIff.mpr ⟨z, by simp⟩)]
      congr 1
      congr 1
      have := List.drop_left (q :: p') z
      simpa using this

theorem replaceList_id (q : Char) (p' r l : List Char)
    (h : ∀ c ∈ l, c ≠ q) : replaceList (q :: p') r l = l := by
  have := replaceList_skip q p' r l [] h
  simpa [replaceList_nil] using this

/-- Characters that `html.escape` leaves unchanged. -/
def plainCh (c : Char) : Bool :=
  !(c = '&' || c = '<' || c = '>' || c = '"' || c = quoteCh)

theorem escL_append (a b : List Char) : escL (a ++ b) = escL a ++ escL b := by
  simp [escL]

theorem escChar_plain {c : Char} (h : plainCh c = true) : escChar c = [c] := by
  simp only [plainCh, Bool.not_eq_true'] at h
  simp only [Bool.or_eq_false_iff, decide_eq_false_iff_not] at h
  obtain ⟨⟨⟨⟨h1, h2⟩, h3⟩, h4⟩, h5⟩ := h
  simp [escChar, h1, h2, h3, h4, h5]

theorem escL_plain (l : List Char) (h : ∀ c ∈ l, plainCh c = true) : escL l = l := by
  induction l with
  | nil => rfl
  | cons c rest ih =>
      show escL (c :: rest) = c :: rest
      simp only [escL, List.flatMap_cons]
      rw [escChar_plain (h c (by simp))]
      have hrest := ih (fun d hd => h d (by simp [hd]))
      simp only [escL] at hrest
      rw [hrest]
      rfl

/-- Claim C10: a bibtex field containing the literal text `&#10;` renders in
the citation body with that entity intact (the escape step turns it into
`&amp;#10;` and the unconditional replacement turns it back), rather than as
the escaped representation of the user-typed text. -/
theorem C10_bibtex_newline :
    ∀ u v : List Char,
      (∀ c ∈ u, plainCh c = true ∧ c ≠ '&') →
      (∀ c ∈ v, plainCh c = true ∧ c ≠ '&') →
      citeBody (String.mk (u ++ "&#10;".data ++ v)) = String.mk (u ++ "&#10;".data ++ v)
      ∧ escL (u ++ "&#10;".data ++ v) = u ++ "&amp;#10;".data ++ v := by
  intro u v hu hv
  have hmid : escL "&#10;".data = "&amp;#10;".data := rfl
  have hesc : escL (u ++ "&#10;".data ++ v) = u ++ "&amp;#10;".data ++ v := by
    rw [escL_append, escL_append]
    rw [escL_plain u (fun c hc => (hu c hc).1)]
    rw [escL_plain v (fun c hc => (hv c hc).1)]
    rw [hmid]
  refine ⟨?_, hesc⟩
  have hpat : "&amp;#10;".data = '&' :: "amp;#10;".data := rfl
  have hrep : "&#10;".data = '&' :: "#10;".data := rfl
  have hlist :
      replaceList "&amp;#10;".data "&#10;".data (escL (u ++ "&#10;".data ++ v))
        = u ++ "&#10;".data ++ v := by
    rw [hesc, List.append_assoc, hpat]
    rw [replaceList_skip '&' "amp;#10;".data "&#10;".data u
      ("&amp;#10;".data ++ v) (fun c hc => (hu c hc).2)]
    rw [show ('&' :: "amp;#10;".data : List Char) = "&amp;#10;".data from rfl]
    rw [replaceList_match "&amp;#10;".data "&#10;".data v (by decide)]
    rw [hrep, hpat]
    rw [replaceList_id '&' "amp;#10;".data ('&' :: "#10;".data) v (fun c hc => (hv c hc).2)]
    rw [show ('&' :: "#10;".data : List Char) = "&#10;".data from rfl]
    rw [List.append_assoc]
  exact congrArg String.mk hlist

/-- Witness for C10 at a concrete bibtex fragment. -/
theorem C10_bibtex_newline_witness :
    citeBody (String.mk ("title".data ++ "&#10;".data ++ "year".data))
      = String.mk ("title".data ++ "&#10;".data ++ "year".data) :=
  (C10_bibtex_newline "title".data "year".data (by decide) (by decide)).1

theorem subDouble_id_not_mem (m : Char) (l : List Char) (h : m ∉ l) :
    subDouble m l = l := by
  induction l with
  | nil => rfl
  | cons a rest ih =>
      simp only [List.mem_cons] at h
      push_neg at h
      rw [subDouble_step m a rest (Or.inl (fun he => h.1 he.symm))]
      rw [ih h.2]

theorem subSingle_id_not_mem (m : Char) (l : List Char) (h : m ∉ l) :
    ∀ prev, subSingle m prev l = l := by
  induction l with
  | nil => intro prev; rfl
  | cons a rest ih =>
      intro prev
      simp only [List.mem_cons] at h
      push_neg at h
      rw [subSingle_step m a prev rest (fun hc => (fun he => h.1 he.symm) hc.1)]
      rw [ih h.2]

/-- No two adjacent occurrences of the marker. -/
def noAdj (m : Char) : List Char → Bool
  | a :: b :: rest => !(a = m && b = m) && noAdj m (b :: rest)
  | _ => true

theorem subDouble_id_noAdj (m : Char) (l : List Char) (h : noAdj m l = true) :
    subDouble m l = l := by
  induction l with
  | nil => rfl
  | cons a rest ih =>
      match rest with
      | [] =>
          rw [subDouble_step m a [] (Or.inr (by simp))]
          rfl
      | b :: rest2 =>
          simp only [noAdj, Bool.and_eq_true, Bool.not_eq_true', Bool.and_eq_false_iff,
            decide_eq_false_iff_not] at h
          have hstep : a ≠ m ∨ (b :: rest2).head? ≠ some m := by
            rcases h.1 with h1 | h1
            · exact Or.inl h1
            · exact Or.inr (by simp [h1])
          rw [subDouble_step m a (b :: rest2) hstep]
          rw [ih (by simpa [noAdj] using h.2)]

theorem noAdj_shape (m : Char) (inner : List Char) (hne : inner ≠ []) (hm : m ∉ inner) :
    noAdj m (m :: inner ++ [m]) = true := by
  induction inner with
  | nil => exact absurd rfl hne
  | cons c rest ih =>
      simp only [List.mem_cons] at hm
      push_neg at hm
      have hcm : c ≠ m := fun he => hm.1 he.symm
      match rest with
      | [] =>
          simp [noAdj, hcm]
      | d :: rest2 =>
          have := ih (by simp) hm.2
          simp only [List.cons_append] at this ⊢
          simp only [noAdj, Bool.and_eq_true, Bool.not_eq_true', Bool.and_eq_false_iff,
            decide_eq_false_iff_not] at this ⊢
          exact ⟨Or.inr hcm, Or.inl hcm, this.2⟩

theorem closeDouble_step (m a b : Char) (ha : a ≠ m) (hnl : a ≠ '\n')
    (rest acc : List Char) :
    closeDouble m acc (a :: b :: rest) = closeDouble m (a :: acc) (b :: rest) := by
  rw [closeDouble]
  rw [if_neg (fun hc => ha hc.1), if_pos hnl]

theorem closeDouble_shape (m : Char) :
    ∀ inner : List Char, (∀ c ∈ inner, c ≠ m ∧ c ≠ '\n') →
    ∀ acc rest0 : List Char,
      closeDouble m acc (inner ++ m :: m :: rest0) = some (acc.reverse ++ inner, rest0) := by
  intro inner
  induction inner with
  | nil =>
      intro _ acc rest0
      simp only [List.nil_append]
      rw [closeDouble]
      rw [if_pos ⟨rfl, rfl⟩]
      simp
  | cons c inner' ih =>
      intro h acc rest0
      have hc := h c (by simp)
      simp only [List.cons_append]
      cases hsplit : inner' ++ m :: m :: rest0 with
      | nil => exact absurd hsplit (by simp)
      | cons x xs =>
          rw [← hsplit]
          have : c :: (inner' ++ m :: m :: rest0) = c :: x :: xs := by rw [hsplit]
          rw [this, closeDouble_step m c x hc.1 hc.2 xs acc, ← hsplit]
          rw [ih (fun d hd => h d (by simp [hd])) (c :: acc) rest0]
          simp

theorem closeSingle_shape (m : Char) :
    ∀ inner : List Char, (∀ c ∈ inner, c ≠ m ∧ c ≠ '\n') →
    ∀ acc : List Char, acc.head? ≠ some m →
    ∀ rest0 : List Char, rest0.head? ≠ some m →
      closeSingle m acc (inner ++ m :: rest0) = some (acc.reverse ++ inner, rest0) := by
  intro inner
  induction inner with
  | nil =>
      intro _ acc hacc rest0 hrest
      simp only [List.nil_append]
      rw [closeSingle]
      rw [if_pos ⟨rfl, hacc, hrest⟩]
      simp
  | cons c inner' ih =>
      intro h acc hacc rest0 hrest
      have hc := h c (by simp)
      simp only [List.cons_append]
      rw [closeSingle]
      rw [if_neg (fun hcond => hc.1 hcond.1), if_pos hc.2]
      rw [ih (fun d hd => h d (by simp [hd])) (c :: acc) (by simp [hc.1]) rest0 hrest]
      simp

/-- Characters inert for the emphasis pipeline: kept by `html.escape` and not
markers or newlines. -/
def emPlain (c : Char) : Bool :=
  plainCh c && !(c = '*' || c = '_' || c = '\n')

theorem emPlain_spec {c : Char} (h : emPlain c = true) :
    plainCh c = true ∧ c ≠ '*' ∧ c ≠ '_' ∧ c ≠ '\n' := by
  simp only [emPlain, Bool.and_eq_true, Bool.not_eq_true', Bool.or_eq_false_iff,
    decide_eq_false_iff_not] at h
  exact ⟨h.1, h.2.1.1, h.2.1.2, h.2.2⟩

theorem replaceList_id_amp (p' r l : List Char) (h : '&' ∉ l) :
    replaceList ('&' :: p') r l = l :=
  replaceList_id '&' p' r l (fun c hc he => h (he ▸ hc))

theorem replaces8_id (t : List Char) (h : '&' ∉ t) :
    replaceList "&lt;/b&gt;".data "</strong>".data
      (replaceList "&lt;b&gt;".data "<strong>".data
        (replaceList "&lt;/strong&gt;".data "</strong>".data
          (replaceList "&lt;strong&gt;".data "<strong>".data
            (replaceList "&lt;/i&gt;".data "</em>".data
              (replaceList "&lt;i&gt;".data "<em>".data
                (replaceList "&lt;/em&gt;".data "</em>".data
                  (replaceList "&lt;em&gt;".data "<em>".data t))))))) = t := by
  rw [show ("&lt;em&gt;".data : List Char) = '&' :: "lt;em&gt;".data from rfl,
    replaceList_id_amp _ _ t h]
  rw [show ("&lt;/em&gt;".data : List Char) = '&' :: "lt;/em&gt;".data from rfl,
    replaceList_id_amp _ _ t h]
  rw [show ("&lt;i&gt;".data : List Char) = '&' :: "lt;i&gt;".data from rfl,
    replaceList_id_amp _ _ t h]
  rw [show ("&lt;/i&gt;".data : List Char) = '&' :: "lt;/i&gt;".data from rfl,
    replaceList_id_amp _ _ t h]
  rw [show ("&lt;strong&gt;".data : List Char) = '&' :: "lt;strong&gt;".data from rfl,
    replaceList_id_amp _ _ t h]
  rw [show ("&lt;/strong&gt;".data : List Char) = '&' :: "lt;/strong&gt;".data from rfl,
    replaceList_id_amp _ _ t h]
  rw [show ("&lt;b&gt;".data : List Char) = '&' :: "lt;b&gt;".data from rfl,
    replaceList_id_amp _ _ t h]
  rw [show ("&lt;/b&gt;".data : List Char) = '&' :: "lt;/b&gt;".data from rfl,
    replaceList_id_amp _ _ t h]

theorem mem_char_of_wrap {x : Char} {A B inner l : List Char}
    (hl : l = A ++ inner ++ B) (hA : x ∉ A) (hB : x ∉ B) (hin : x ∉ inner) : x ∉ l := by
  subst hl
  simp only [List.mem_append]
  intro hc
  rcases hc with (hc | hc) | hc
  · exact hA hc
  · exact hin hc
  · exact hB hc

theorem pipeline_tail_id (t : List Char) (hu : '_' ∉ t) (hs : '*' ∉ t) (ha : '&' ∉ t) :
    replaceList "&lt;/b&gt;".data "</strong>".data
      (replaceList "&lt;b&gt;".data "<strong>".data
        (replaceList "&lt;/strong&gt;".data "</strong>".data
          (replaceList "&lt;strong&gt;".data "<strong>".data
            (replaceList "&lt;/i&gt;".data "</em>".data
              (replaceList "&lt;i&gt;".data "<em>".data
                (replaceList "&lt;/em&gt;".data "</em>".data
                  (replaceList "&lt;em&gt;".data "<em>".data
                    (subSingle '_' none (subSingle '*' none (subDouble '_' t)))))))))) = t := by
  rw [subDouble_id_not_mem '_' t hu, subSingle_id_not_mem '*' t hs none,
    subSingle_id_not_mem '_' t hu none, replaces8_id t ha]

theorem fmtL_bold_star (inner : List Char) (hne : inner ≠ [])
    (h : ∀ c ∈ inner, emPlain c = true) :
    fmtL ('*' :: '*' :: inner ++ ['*', '*']) =
      "<strong>".data ++ inner ++ "</strong>".data := by
  match inner with
  | c :: inner' =>
    have hc := emPlain_spec (h c (by simp))
    have hplain : ∀ d ∈ '*' :: '*' :: (c :: inner') ++ ['*', '*'], plainCh d = true := by
      intro d hd
      simp only [List.mem_append, List.mem_cons, List.mem_singleton] at hd
      rcases hd with (rfl | rfl | rfl | hd) | (rfl | rfl | hd0)
      · decide
      · decide
      · exact hc.1
      · exact (emPlain_spec (h d (by simp [hd]))).1
      · decide
      · decide
      · exact absurd hd0 (by simp)
    have hstar : ('*' : Char) ∉ (c :: inner') :=
      fun hm => absurd (h _ hm) (by decide)
    have hunder : ('_' : Char) ∉ (c :: inner') :=
      fun hm => (emPlain_spec (h _ hm)).2.2.1 rfl
    have hamp : ('&' : Char) ∉ (c :: inner') :=
      fun hm => by
        have := (emPlain_spec (h _ hm)).1
        simp [plainCh] at this
    simp only [fmtL]
    rw [escL_plain _ hplain]
    have hclose : closeDouble '*' [c] (inner' ++ '*' :: '*' :: []) =
        some (c :: inner', []) := by
      have := closeDouble_shape '*' inner'
        (fun d hd => ⟨(emPlain_spec (h d (by simp [hd]))).2.1,
                      (emPlain_spec (h d (by simp [hd]))).2.2.2⟩) [c] []
      simpa using this
    have hopen := subDouble_open '*' c (c :: inner') (inner' ++ '*' :: '*' :: []) []
      hc.2.2.2 hclose
    simp only [List.cons_append]
    rw [hopen, subDouble_nil, List.append_nil]
    rw [pipeline_tail_id]
    · rfl
    · exact mem_char_of_wrap rfl (by decide) (by decide) hunder
    · exact mem_char_of_wrap rfl (by decide) (by decide) hstar
    · exact mem_char_of_wrap rfl (by decide) (by decide) hamp

theorem pipeline_tail2_id (t : List Char) (hu : '_' ∉ t) (hs : '*' ∉ t) (ha : '&' ∉ t) :
    replaceList "&lt;/b&gt;".data "</strong>".data
      (replaceList "&lt;b&gt;".data "<strong>".data
        (replaceList "&lt;/strong&gt;".data "</strong>".data
          (replaceList "&lt;strong&gt;".data "<strong>".data
            (replaceList "&lt;/i&gt;".data "</em>".data
              (replaceList "&lt;i&gt;".data "<em>".data
                (replaceList "&lt;/em&gt;".data "</em>".data
                  (replaceList "&lt;em&gt;".data "<em>".data
                    (subSingle '_' none (subSingle '*' none t))))))))) = t := by
  rw [subSingle_id_not_mem '*' t hs none, subSingle_id_not_mem '_' t hu none,
    replaces8_id t ha]

theorem pipeline_tail3_id (t : List Char) (hu : '_' ∉ t) (ha : '&' ∉ t) :
    replaceList "&lt;/b&gt;".data "</strong>".data
      (replaceList "&lt;b&gt;".data "<strong>".data
        (replaceList "&lt;/strong&gt;".data "</strong>".data
          (replaceList "&lt;strong&gt;".data "<strong>".data
            (replaceList "&lt;/i&gt;".data "</em>".data
              (replaceList "&lt;i&gt;".data "<em>".data
                (replaceList "&lt;/em&gt;".data "</em>".data
                  (replaceList "&lt;em&gt;".data "<em>".data
                    (subSingle '_' none t)))))))) = t := by
  rw [subSingle_id_not_mem '_' t hu none, replaces8_id t ha]

theorem fmtL_bold_under (inner : List Char) (hne : inner ≠ [])
    (h : ∀ c ∈ inner, emPlain c = true) :
    fmtL ('_' :: '_' :: inner ++ ['_', '_']) =
      "<strong>".data ++ inner ++ "</strong>".data := by
  match inner with
  | c :: inner' =>
    have hc := emPlain_spec (h c (by simp))
    have hplain : ∀ d ∈ '_' :: '_' :: (c :: inner') ++ ['_', '_'], plainCh d = true := by
      intro d hd
      simp only [List.mem_append, List.mem_cons, List.mem_singleton] at hd
      rcases hd with (rfl | rfl | rfl | hd) | (rfl | rfl | hd0)
      · decide
      · decide
      · exact hc.1
      · exact (emPlain_spec (h d (by simp [hd]))).1
      · decide
      · decide
      · exact absurd hd0 (by simp)
    have hstar : ('*' : Char) ∉ (c :: inner') :=
      fun hm => (emPlain_spec (h _ hm)).2.1 rfl
    have hunder : ('_' : Char) ∉ (c :: inner') :=
      fun hm => (emPlain_spec (h _ hm)).2.2.1 rfl
    have hamp : ('&' : Char) ∉ (c :: inner') :=
      fun hm => by
        have := (emPlain_spec (h _ hm)).1
        simp [plainCh] at this
    have hstarIn : ('*' : Char) ∉ '_' :: '_' :: (c :: inner') ++ ['_', '_'] := by
      simp only [List.mem_append, List.mem_cons, List.mem_singleton]
      intro hd
      rcases hd with (hd | hd | hd | hd) | (hd | hd | hd)
      · exact absurd hd (by decide)
      · exact absurd hd (by decide)
      · exact hstar (hd ▸ List.mem_cons_self c inner')
      · exact hstar (by simp [hd])
      · exact absurd hd (by decide)
      · exact absurd hd (by decide)
      · exact absurd hd (by simp)
    simp only [fmtL]
    rw [escL_plain _ hplain]
    simp only [List.cons_append]
    rw [subDouble_id_not_mem '*' _ (by simpa using hstarIn)]
    have hclose : closeDouble '_' [c] (inner' ++ '_' :: '_' :: []) =
        some (c :: inner', []) := by
      have := closeDouble_shape '_' inner'
        (fun d hd => ⟨(emPlain_spec (h d (by simp [hd]))).2.2.1,
                      (emPlain_spec (h d (by simp [hd]))).2.2.2⟩) [c] []
      simpa using this
    have hopen := subDouble_open '_' c (c :: inner') (inner' ++ '_' :: '_' :: []) []
      hc.2.2.2 hclose
    rw [hopen, subDouble_nil, List.append_nil]
    rw [pipeline_tail2_id]
    · rfl
    · exact mem_char_of_wrap rfl (by decide) (by decide) hunder
    · exact mem_char_of_wrap rfl (by decide) (by decide) hstar
    · exact mem_char_of_wrap rfl (by decide) (by decide) hamp

theorem fmtL_em_star (inner : List Char) (hne : inner ≠ [])
    (h : ∀ c ∈ inner, emPlain c = true) :
    fmtL ('*' :: inner ++ ['*']) = "<em>".data ++ inner ++ "</em>".data := by
  match inner with
  | c :: inner' =>
    have hc := emPlain_spec (h c (by simp))
    have hplain : ∀ d ∈ '*' :: (c :: inner') ++ ['*'], plainCh d = true := by
      intro d hd
      simp only [List.mem_append, List.mem_cons, List.mem_singleton] at hd
      rcases hd with (rfl | rfl | hd) | (rfl | hd0)
      · decide
      · exact hc.1
      · exact (emPlain_spec (h d (by simp [hd]))).1
      · decide
      · exact absurd hd0 (by simp)
    have hstar : ('*' : Char) ∉ (c :: inner') :=
      fun hm => (emPlain_spec (h _ hm)).2.1 rfl
    have hunder : ('_' : Char) ∉ (c :: inner') :=
      fun hm => (emPlain_spec (h _ hm)).2.2.1 rfl
    have hamp : ('&' : Char) ∉ (c :: inner') :=
      fun hm => by
        have := (emPlain_spec (h _ hm)).1
        simp [plainCh] at this
    have hunderIn : ('_' : Char) ∉ '*' :: (c :: inner') ++ ['*'] := by
      simp only [List.mem_append, List.mem_cons, List.mem_singleton]
      intro hd
      rcases hd with (hd | hd | hd) | (hd | hd0)
      · exact absurd hd (by decide)
      · exact hunder (hd ▸ List.mem_cons_self c inner')
      · exact hunder (by simp [hd])
      · exact absurd hd (by decide)
      · exact absurd hd0 (by simp)
    simp only [fmtL]
    rw [escL_plain _ hplain]
    simp only [List.cons_append]
    have hnoadj : noAdj '*' ('*' :: (c :: inner') ++ ['*']) = true :=
      noAdj_shape '*' (c :: inner') (by simp) hstar
    simp only [List.cons_append] at hnoadj
    rw [subDouble_id_noAdj '*' _ hnoadj]
    rw [subDouble_id_not_mem '_' _ (by simpa using hunderIn)]
    have hcloseS : closeSingle '*' [c] (inner' ++ '*' :: []) = some (c :: inner', []) := by
      have := closeSingle_shape '*' inner'
        (fun d hd => ⟨(emPlain_spec (h d (by simp [hd]))).2.1,
                      (emPlain_spec (h d (by simp [hd]))).2.2.2⟩)
        [c] (by simp [hc.2.1]) [] (by simp)
      simpa using this
    have hopenS := subSingle_open '*' c none (c :: inner') (inner' ++ '*' :: []) []
      (by simp) hc.2.1 hc.2.2.2 hcloseS
    rw [hopenS, subSingle_nil, List.append_nil]
    rw [pipeline_tail3_id]
    · rfl
    · exact mem_char_of_wrap rfl (by decide) (by decide) hunder
    · exact mem_char_of_wrap rfl (by decide) (by decide) hamp

theorem fmtL_em_under (inner : List Char) (hne : inner ≠ [])
    (h : ∀ c ∈ inner, emPlain c = true) :
    fmtL ('_' :: inner ++ ['_']) = "<em>".data ++ inner ++ "</em>".data := by
  match inner with
  | c :: inner' =>
    have hc := emPlain_spec (h c (by simp))
    have hplain : ∀ d ∈ '_' :: (c :: inner') ++ ['_'], plainCh d = true := by
      intro d hd
      simp only [List.mem_append, List.mem_cons, List.mem_singleton] at hd
      rcases hd with (rfl | rfl | hd) | (rfl | hd0)
      · decide
      · exact hc.1
      · exact (emPlain_spec (h d (by simp [hd]))).1
      · decide
      · exact absurd hd0 (by simp)
    have hstar : ('*' : Char) ∉ (c :: inner') :=
      fun hm => (emPlain_spec (h _ hm)).2.1 rfl
    have hunder : ('_' : Char) ∉ (c :: inner') :=
      fun hm => (emPlain_spec (h _ hm)).2.2.1 rfl
    have hamp : ('&' : Char) ∉ (c :: inner') :=
      fun hm => by
        have := (emPlain_spec (h _ hm)).1
        simp [plainCh] at this
    have hstarIn : ('*' : Char) ∉ '_' :: (c :: inner') ++ ['_'] := by
      simp only [List.mem_append, List.mem_cons, List.mem_singleton]
      intro hd
      rcases hd with (hd | hd | hd) | (hd | hd0)
      · exact absurd hd (by decide)
      · exact hstar (hd ▸ List.mem_cons_self c inner')
      · exact hstar (by simp [hd])
      · exact absurd hd (by decide)
      · exact absurd hd0 (by simp)
    simp only [fmtL]
    rw [escL_plain _ hplain]
    simp only [List.cons_append]
    rw [subDouble_id_not_mem '*' _ (by simpa using hstarIn)]
    have hnoadj : noAdj '_' ('_' :: (c :: inner') ++ ['_']) = true :=
      noAdj_shape '_' (c :: inner') (by simp) hunder
    simp only [List.cons_append] at hnoadj
    rw [subDouble_id_noAdj '_' _ hnoadj]
    rw [subSingle_id_not_mem '*' _ (by simpa using hstarIn) none]
    have hcloseS : closeSingle '_' [c] (inner' ++ '_' :: []) = some (c :: inner', []) := by
      have := closeSingle_shape '_' inner'
        (fun d hd => ⟨(emPlain_spec (h d (by simp [hd]))).2.2.1,
                      (emPlain_spec (h d (by simp [hd]))).2.2.2⟩)
        [c] (by simp [hc.2.2.1]) [] (by simp)
      simpa using this
    have hopenS := subSingle_open '_' c none (c :: inner') (inner' ++ '_' :: []) []
      (by simp) hc.2.2.1 hc.2.2.2 hcloseS
    rw [hopenS, subSingle_nil, List.append_nil]
    rw [replaces8_id]
    · rfl
    · exact mem_char_of_wrap rfl (by decide) (by decide) hamp

/-- Claim C6: on escaped text, `**x**` and `__x__` become strong spans and
single `*x*` / `_x_` (markers not adjacent to an identical marker) become
emphasis spans; matching is non-greedy (shortest span wins, as in `*a*b*`),
and a `*` adjacent to another `*` is never the single-emphasis marker (`**`
is left alone); the spec's example renders exactly with no leftover markers. -/
theorem C6_emphasis :
    fmt "**bold** and *it*" = "<strong>bold</strong> and <em>it</em>"
    ∧ (∀ inner : List Char, inner ≠ [] → (∀ c ∈ inner, emPlain c = true) →
        fmtL ('*' :: '*' :: inner ++ ['*', '*'])
            = "<strong>".data ++ inner ++ "</strong>".data
        ∧ fmtL ('_' :: '_' :: inner ++ ['_', '_'])
            = "<strong>".data ++ inner ++ "</strong>".data
        ∧ fmtL ('*' :: inner ++ ['*']) = "<em>".data ++ inner ++ "</em>".data
        ∧ fmtL ('_' :: inner ++ ['_']) = "<em>".data ++ inner ++ "</em>".data)
    ∧ fmt "*a*b*" = "<em>a</em>b*"
    ∧ fmt "**" = "**"
    ∧ fmt "a ** b" = "a ** b" :=
  ⟨by decide,
   fun inner hne h =>
     ⟨fmtL_bold_star inner hne h, fmtL_bold_under inner hne h,
      fmtL_em_star inner hne h, fmtL_em_under inner hne h⟩,
   by decide, by decide, by decide⟩

/-- Witness for C6's general part at the concrete inner text `bold`. -/
theorem C6_emphasis_witness :
    fmtL ('*' :: '*' :: "bold".data ++ ['*', '*'])
      = "<strong>".data ++ "bold".data ++ "</strong>".data :=
  (C6_emphasis.2.1 "bold".data (by decide) (by decide)).1

/-! Machinery for the escaping/whitelist guarantee (claim C1).  A rendered
fragment is "whitelist-safe" when it is a concatenation of plain characters
(no raw `<`, `>`, `"`, apostrophe or `&`), the five escape entities produced
by `html.escape`, and the four whitelisted tag pairs of `fmt`.  `wlOk` decides
this by the unique greedy tokenization (no token is a prefix of another, and
multi-character tokens start with `<` or `&`, which are not plain). -/

def tagEmO : List Char := ['<', 'e', 'm', '>']
def tagEmC : List Char := ['<', '/', 'e', 'm', '>']
def tagStrongO : List Char := ['<', 's', 't', 'r', 'o', 'n', 'g', '>']
def tagStrongC : List Char := ['<', '/', 's', 't', 'r', 'o', 'n', 'g', '>']
def entAmp : List Char := ['&', 'a', 'm', 'p', ';']
def entLt : List Char := ['&', 'l', 't', ';']
def entGt : List Char := ['&', 'g', 't', ';']
def entQuot : List Char := ['&', 'q', 'u', 'o', 't', ';']
def entApos : List Char := ['&', '#', 'x', '2', '7', ';']

def Token (t : List Char) : Prop :=
  t = tagEmO ∨ t = tagEmC ∨ t = tagStrongO ∨ t = tagStrongC
  ∨ t = entAmp ∨ t = entLt ∨ t = entGt ∨ t = entQuot ∨ t = entApos

/-- The token (by its length) starting at the head of `l`, if any. -/
def tokAt (l : List Char) : Option Nat :=
  if tagEmO.isPrefixOf l then some 4
  else if tagEmC.isPrefixOf l then some 5
  else if tagStrongO.isPrefixOf l then some 8
  else if tagStrongC.isPrefixOf l then some 9
  else if entAmp.isPrefixOf l then some 5
  else if entLt.isPrefixOf l then some 4
  else if entGt.isPrefixOf l then some 4
  else if entQuot.isPrefixOf l then some 6
  else if entApos.isPrefixOf l then some 6
  else none

def wlOkF : Nat → List Char → Bool
  | _, [] => true
  | 0, _ => false
  | f + 1, c :: rest =>
      match tokAt (c :: rest) with
      | some k => wlOkF f ((c :: rest).drop k)
      | none => plainCh c && wlOkF f rest

def wlOk (l : List Char) : Bool := wlOkF (List.length l) l

theorem prefixComparable {p q l : List Char} (hp : p <+: l) (hq : q <+: l) :
    p <+: q ∨ q <+: p :=
  List.prefix_or_prefix_of_prefix hp hq

theorem isPrefixOf_append_false {p a b : List Char}
    (h1 : ¬p.isPrefixOf a = true) (h2 : ¬a.isPrefixOf p = true) :
    ¬p.isPrefixOf (a ++ b) = true := by
  intro hc
  have hpl := prefixOfIff.mp hc
  have hal : a <+: a ++ b := ⟨b, rfl⟩
  rcases prefixComparable hpl hal with h | h
  · exact h1 (prefixOfIff.mpr h)
  · exact h2 (prefixOfIff.mpr h)

theorem isPrefixOf_append_self (p b : List Char) : p.isPrefixOf (p ++ b) = true :=
  prefixOfIff.mpr ⟨b, rfl⟩

theorem tokAt_some_decomp {l : List Char} {k : Nat} (h : tokAt l = some k) :
    ∃ t, Token t ∧ t.length = k ∧ t.isPrefixOf l = true := by
  simp only [tokAt] at h
  split_ifs at h with h1 h2 h3 h4 h5 h6 h7 h8 h9 <;>
    simp only [Option.some.injEq] at h
  · exact ⟨tagEmO, Or.inl rfl, by rw [← h]; rfl, h1⟩
  · exact ⟨tagEmC, Or.inr (Or.inl rfl), by rw [← h]; rfl, h2⟩
  · exact ⟨tagStrongO, Or.inr (Or.inr (Or.inl rfl)), by rw [← h]; rfl, h3⟩
  · exact ⟨tagStrongC, Or.inr (Or.inr (Or.inr (Or.inl rfl))), by rw [← h]; rfl, h4⟩
  · exact ⟨entAmp, Or.inr (Or.inr (Or.inr (Or.inr (Or.inl rfl)))), by rw [← h]; rfl, h5⟩
  · exact ⟨entLt, Or.inr (Or.inr (Or.inr (Or.inr (Or.inr (Or.inl rfl))))),
      by rw [← h]; rfl, h6⟩
  · exact ⟨entGt, Or.inr (Or.inr (Or.inr (Or.inr (Or.inr (Or.inr (Or.inl rfl)))))),
      by rw [← h]; rfl, h7⟩
  · exact ⟨entQuot, Or.inr (Or.inr (Or.inr (Or.inr (Or.inr (Or.inr (Or.inr (Or.inl rfl))))))),
      by rw [← h]; rfl, h8⟩
  · exact ⟨entApos,
      Or.inr (Or.inr (Or.inr (Or.inr (Or.inr (Or.inr (Or.inr (Or.inr rfl))))))),
      by rw [← h]; rfl, h9⟩

theorem tokAt_some_len {l : List Char} {k : Nat} (h : tokAt l = some k) :
    4 ≤ k ∧ k ≤ 9 := by
  simp only [tokAt] at h
  split_ifs at h <;> simp only [Option.some.injEq] at h <;> omega

theorem token_length {t : List Char} (ht : Token t) : 4 ≤ t.length ∧ t.length ≤ 9 := by
  rcases ht with rfl | rfl | rfl | rfl | rfl | rfl | rfl | rfl | rfl <;>
    exact ⟨by decide, by decide⟩

theorem token_ne_nil {t : List Char} (ht : Token t) : t ≠ [] := by
  intro h
  have := (token_length ht).1
  rw [h] at this
  simp at this

theorem wlOkF_nil (f : Nat) : wlOkF f [] = true := by
  cases f <;> rfl

theorem wlOkF_fuel :
    ∀ n l, List.length l ≤ n → ∀ f₁ f₂, List.length l ≤ f₁ → List.length l ≤ f₂ →
      wlOkF f₁ l = wlOkF f₂ l := by
  intro n
  induction n with
  | zero =>
      intro l hl f₁ f₂ h₁ h₂
      have : l = [] := by cases l <;> simp_all
      subst this; simp [wlOkF_nil]
  | succ n ih =>
      intro l hl f₁ f₂ h₁ h₂
      match l with
      | [] => simp [wlOkF_nil]
      | c :: rest =>
        simp only [List.length_cons] at hl h₁ h₂
        match f₁, f₂ with
        | g₁ + 1, g₂ + 1 =>
          simp only [wlOkF]
          cases htok : tokAt (c :: rest) with
          | none =>
              dsimp only
              rw [ih rest (by omega) g₁ g₂ (by omega) (by omega)]
          | some k =>
              dsimp only
              have hk := tokAt_some_len htok
              have hdl : ((c :: rest).drop k).length ≤ n := by
                simp only [List.length_drop, List.length_cons]
                omega
              exact ih ((c :: rest).drop k) hdl g₁ g₂
                (by simp only [List.length_drop, List.length_cons]; omega)
                (by simp only [List.length_drop, List.length_cons]; omega)

theorem plainCh_spec {c : Char} (h : plainCh c = true) :
    c ≠ '&' ∧ c ≠ '<' ∧ c ≠ '>' ∧ c ≠ '"' ∧ c ≠ quoteCh := by
  simp only [plainCh, Bool.not_eq_true', Bool.or_eq_false_iff,
    decide_eq_false_iff_not] at h
  exact ⟨h.1.1.1.1, h.1.1.1.2, h.1.1.2, h.1.2, h.2⟩

theorem tokAt_safe (c : Char) (rest : List Char) (h : plainCh c = true) :
    tokAt (c :: rest) = none := by
  have hs := plainCh_spec h
  simp only [tokAt, tagEmO, tagEmC, tagStrongO, tagStrongC, entAmp, entLt, entGt,
    entQuot, entApos]
  rw [if_neg (not_isPrefixOf_of_head_ne hs.2.1), if_neg (not_isPrefixOf_of_head_ne hs.2.1),
    if_neg (not_isPrefixOf_of_head_ne hs.2.1), if_neg (not_isPrefixOf_of_head_ne hs.2.1),
    if_neg (not_isPrefixOf_of_head_ne hs.1), if_neg (not_isPrefixOf_of_head_ne hs.1),
    if_neg (not_isPrefixOf_of_head_ne hs.1), if_neg (not_isPrefixOf_of_head_ne hs.1),
    if_neg (not_isPrefixOf_of_head_ne hs.1)]

theorem tokAt_EmO (z : List Char) : tokAt ('<' :: 'e' :: 'm' :: '>' :: z) = some 4 := by
  show tokAt (tagEmO ++ z) = some 4
  simp only [tokAt]
  rw [if_pos (isPrefixOf_append_self tagEmO z)]

theorem tokAt_EmC (z : List Char) : tokAt ('<' :: '/' :: 'e' :: 'm' :: '>' :: z) = some 5 := by
  show tokAt (tagEmC ++ z) = some 5
  simp only [tokAt]
  rw [if_neg (isPrefixOf_append_false (by decide) (by decide)), if_pos (isPrefixOf_append_self tagEmC z)]

theorem tokAt_StrongO (z : List Char) : tokAt ('<' :: 's' :: 't' :: 'r' :: 'o' :: 'n' :: 'g' :: '>' :: z) = some 8 := by
  show tokAt (tagStrongO ++ z) = some 8
  simp only [tokAt]
  rw [if_neg (isPrefixOf_append_false (by decide) (by decide)), if_neg (isPrefixOf_append_false (by decide) (by decide)), if_pos (isPrefixOf_append_self tagStrongO z)]

theorem tokAt_StrongC (z : List Char) : tokAt ('<' :: '/' :: 's' :: 't' :: 'r' :: 'o' :: 'n' :: 'g' :: '>' :: z) = some 9 := by
  show tokAt (tagStrongC ++ z) = some 9
  simp only [tokAt]
  rw [if_neg (isPrefixOf_append_false (by decide) (by decide)), if_neg (isPrefixOf_append_false (by decide) (by decide)), if_neg (isPrefixOf_append_false (by decide) (by decide)), if_pos (isPrefixOf_append_self tagStrongC z)]

theorem tokAt_Amp (z : List Char) : tokAt ('&' :: 'a' :: 'm' :: 'p' :: ';' :: z) = some 5 := by
  show tokAt (entAmp ++ z) = some 5
  simp only [tokAt]
  rw [if_neg (isPrefixOf_append_false (by decide) (by decide)), if_neg (isPrefixOf_append_false (by decide) (by decide)), if_neg (isPrefixOf_append_false (by decide) (by decide)), if_neg (isPrefixOf_append_false (by decide) (by decide)), if_pos (isPrefixOf_append_self entAmp z)]

theorem tokAt_Lt (z : List Char) : tokAt ('&' :: 'l' :: 't' :: ';' :: z) = some 4 := by
  show tokAt (entLt ++ z) = some 4
  simp only [tokAt]
  rw [if_neg (isPrefixOf_append_false (by decide) (by decide)), if_neg (isPrefixOf_append_false (by decide) (by decide)), if_neg (isPrefixOf_append_false (by decide) (by decide)), if_neg (isPrefixOf_append_false (by decide) (by decide)), if_neg (isPrefixOf_append_false (by decide) (by decide)), if_pos (isPrefixOf_append_self entLt z)]

theorem tokAt_Gt (z : List Char) : tokAt ('&' :: 'g' :: 't' :: ';' :: z) = some 4 := by
  show tokAt (entGt ++ z) = some 4
  simp only [tokAt]
  rw [if_neg (isPrefixOf_append_false (by decide) (by decide)), if_neg (isPrefixOf_append_false (by decide) (by decide)), if_neg (isPrefixOf_append_false (by decide) (by decide)), if_neg (isPrefixOf_append_false (by decide) (by decide)), if_neg (isPrefixOf_append_false (by decide) (by decide)), if_neg (isPrefixOf_append_false (by decide) (by decide)), if_pos (isPrefixOf_append_self entGt z)]

theorem tokAt_Quot (z : List Char) : tokAt ('&' :: 'q' :: 'u' :: 'o' :: 't' :: ';' :: z) = some 6 := by
  show tokAt (entQuot ++ z) = some 6
  simp only [tokAt]
  rw [if_neg (isPrefixOf_append_false (by decide) (by decide)), if_neg (isPrefixOf_append_false (by decide) (by decide)), if_neg (isPrefixOf_append_false (by decide) (by decide)), if_neg (isPrefixOf_append_false (by decide) (by decide)), if_neg (isPrefixOf_append_false (by decide) (by decide)), if_neg (isPrefixOf_append_false (by decide) (by decide)), if_neg (isPrefixOf_append_false (by decide) (by decide)), if_pos (isPrefixOf_append_self entQuot z)]

theorem tokAt_Apos (z : List Char) : tokAt ('&' :: '#' :: 'x' :: '2' :: '7' :: ';' :: z) = some 6 := by
  show tokAt (entApos ++ z) = some 6
  simp only [tokAt]
  rw [if_neg (isPrefixOf_append_false (by decide) (by decide)), if_neg (isPrefixOf_append_false (by decide) (by decide)), if_neg (isPrefixOf_append_false (by decide) (by decide)), if_neg (isPrefixOf_append_false (by decide) (by decide)), if_neg (isPrefixOf_append_false (by decide) (by decide)), if_neg (isPrefixOf_append_false (by decide) (by decide)), if_neg (isPrefixOf_append_false (by decide) (by decide)), if_neg (isPrefixOf_append_false (by decide) (by decide)), if_pos (isPrefixOf_append_self entApos z)]

theorem wlOk_nil : wlOk [] = true := rfl

theorem wlOk_safe_cons {c : Char} (h : plainCh c = true) (l : List Char) :
    wlOk (c :: l) = wlOk l := by
  show wlOkF (List.length l + 1) (c :: l) = _
  conv_lhs => rw [wlOkF]
  rw [tokAt_safe c l h, h]
  simp only [Bool.true_and]
  rfl

theorem wlOk_tokEmO (z : List Char) : wlOk (tagEmO ++ z) = wlOk z := by
  show wlOkF (List.length z + 1 + 1 + 1 + 1) ('<' :: 'e' :: 'm' :: '>' :: z) = _
  conv_lhs => rw [wlOkF]
  rw [tokAt_EmO]
  dsimp only
  rw [show ('<' :: 'e' :: 'm' :: '>' :: z).drop 4 = z from rfl]
  exact wlOkF_fuel (List.length z + 1 + 1 + 1) z (by omega) (List.length z + 1 + 1 + 1) (List.length z) (by omega) le_rfl

theorem wlOk_tokEmC (z : List Char) : wlOk (tagEmC ++ z) = wlOk z := by
  show wlOkF (List.length z + 1 + 1 + 1 + 1 + 1) ('<' :: '/' :: 'e' :: 'm' :: '>' :: z) = _
  conv_lhs => rw [wlOkF]
  rw [tokAt_EmC]
  dsimp only
  rw [show ('<' :: '/' :: 'e' :: 'm' :: '>' :: z).drop 5 = z from rfl]
  exact wlOkF_fuel (List.length z + 1 + 1 + 1 + 1) z (by omega) (List.length z + 1 + 1 + 1 + 1) (List.length z) (by omega) le_rfl

theorem wlOk_tokStrongO (z : List Char) : wlOk (tagStrongO ++ z) = wlOk z := by
  show wlOkF (List.length z + 1 + 1 + 1 + 1 + 1 + 1 + 1 + 1) ('<' :: 's' :: 't' :: 'r' :: 'o' :: 'n' :: 'g' :: '>' :: z) = _
  conv_lhs => rw [wlOkF]
  rw [tokAt_StrongO]
  dsimp only
  rw [show ('<' :: 's' :: 't' :: 'r' :: 'o' :: 'n' :: 'g' :: '>' :: z).drop 8 = z from rfl]
  exact wlOkF_fuel (List.length z + 1 + 1 + 1 + 1 + 1 + 1 + 1) z (by omega) (List.length z + 1 + 1 + 1 + 1 + 1 + 1 + 1) (List.length z) (by omega) le_rfl

theorem wlOk_tokStrongC (z : List Char) : wlOk (tagStrongC ++ z) = wlOk z := by
  show wlOkF (List.length z + 1 + 1 + 1 + 1 + 1 + 1 + 1 + 1 + 1) ('<' :: '/' :: 's' :: 't' :: 'r' :: 'o' :: 'n' :: 'g' :: '>' :: z) = _
  conv_lhs => rw [wlOkF]
  rw [tokAt_StrongC]
  dsimp only
  rw [show ('<' :: '/' :: 's' :: 't' :: 'r' :: 'o' :: 'n' :: 'g' :: '>' :: z).drop 9 = z from rfl]
  exact wlOkF_fuel (List.length z + 1 + 1 + 1 + 1 + 1 + 1 + 1 + 1) z (by omega) (List.length z + 1 + 1 + 1 + 1 + 1 + 1 + 1 + 1) (List.length z) (by omega) le_rfl

theorem wlOk_tokAmp (z : List Char) : wlOk (entAmp ++ z) = wlOk z := by
  show wlOkF (List.length z + 1 + 1 + 1 + 1 + 1) ('&' :: 'a' :: 'm' :: 'p' :: ';' :: z) = _
  conv_lhs => rw [wlOkF]
  rw [tokAt_Amp]
  dsimp only
  rw [show ('&' :: 'a' :: 'm' :: 'p' :: ';' :: z).drop 5 = z from rfl]
  exact wlOkF_fuel (List.length z + 1 + 1 + 1 + 1) z (by omega) (List.length z + 1 + 1 + 1 + 1) (List.length z) (by omega) le_rfl

theorem wlOk_tokLt (z : List Char) : wlOk (entLt ++ z) = wlOk z := by
  show wlOkF (List.length z + 1 + 1 + 1 + 1) ('&' :: 'l' :: 't' :: ';' :: z) = _
  conv_lhs => rw [wlOkF]
  rw [tokAt_Lt]
  dsimp only
  rw [show ('&' :: 'l' :: 't' :: ';' :: z).drop 4 = z from rfl]
  exact wlOkF_fuel (List.length z + 1 + 1 + 1) z (by omega) (List.length z + 1 + 1 + 1) (List.length z) (by omega) le_rfl

theorem wlOk_tokGt (z : List Char) : wlOk (entGt ++ z) = wlOk z := by
  show wlOkF (List.length z + 1 + 1 + 1 + 1) ('&' :: 'g' :: 't' :: ';' :: z) = _
  conv_lhs => rw [wlOkF]
  rw [tokAt_Gt]
  dsimp only
  rw [show ('&' :: 'g' :: 't' :: ';' :: z).drop 4 = z from rfl]
  exact wlOkF_fuel (List.length z + 1 + 1 + 1) z (by omega) (List.length z + 1 + 1 + 1) (List.length z) (by omega) le_rfl

theorem wlOk_tokQuot (z : List Char) : wlOk (entQuot ++ z) = wlOk z := by
  show wlOkF (List.length z + 1 + 1 + 1 + 1 + 1 + 1) ('&' :: 'q' :: 'u' :: 'o' :: 't' :: ';' :: z) = _
  conv_lhs => rw [wlOkF]
  rw [tokAt_Quot]
  dsimp only
  rw [show ('&' :: 'q' :: 'u' :: 'o' :: 't' :: ';' :: z).drop 6 = z from rfl]
  exact wlOkF_fuel (List.length z + 1 + 1 + 1 + 1 + 1) z (by omega) (List.length z + 1 + 1 + 1 + 1 + 1) (List.length z) (by omega) le_rfl

theorem wlOk_tokApos (z : List Char) : wlOk (entApos ++ z) = wlOk z := by
  show wlOkF (List.length z + 1 + 1 + 1 + 1 + 1 + 1) ('&' :: '#' :: 'x' :: '2' :: '7' :: ';' :: z) = _
  conv_lhs => rw [wlOkF]
  rw [tokAt_Apos]
  dsimp only
  rw [show ('&' :: '#' :: 'x' :: '2' :: '7' :: ';' :: z).drop 6 = z from rfl]
  exact wlOkF_fuel (List.length z + 1 + 1 + 1 + 1 + 1) z (by omega) (List.length z + 1 + 1 + 1 + 1 + 1) (List.length z) (by omega) le_rfl

theorem wlOk_token {t : List Char} (ht : Token t) (z : List Char) :
    wlOk (t ++ z) = wlOk z := by
  rcases ht with rfl | rfl | rfl | rfl | rfl | rfl | rfl | rfl | rfl
  · exact wlOk_tokEmO z
  · exact wlOk_tokEmC z
  · exact wlOk_tokStrongO z
  · exact wlOk_tokStrongC z
  · exact wlOk_tokAmp z
  · exact wlOk_tokLt z
  · exact wlOk_tokGt z
  · exact wlOk_tokQuot z
  · exact wlOk_tokApos z

theorem wlOk_inv {l : List Char} (h : wlOk l = true) :
    l = [] ∨ (∃ c z, l = c :: z ∧ plainCh c = true ∧ wlOk z = true)
    ∨ (∃ t z, Token t ∧ l = t ++ z ∧ wlOk z = true) := by
  match l with
  | [] => exact Or.inl rfl
  | c :: rest =>
      right
      have h' : wlOkF (List.length rest + 1) (c :: rest) = true := h
      rw [wlOkF] at h'
      cases htok : tokAt (c :: rest) with
      | none =>
          rw [htok] at h'
          dsimp only at h'
          rw [Bool.and_eq_true] at h'
          exact Or.inl ⟨c, rest, rfl, h'.1, h'.2⟩
      | some k =>
          rw [htok] at h'
          dsimp only at h'
          obtain ⟨t, ht, hlen, hpre⟩ := tokAt_some_decomp htok
          have hk := tokAt_some_len htok
          have hl : c :: rest = t ++ (c :: rest).drop k := by
            obtain ⟨s, hs⟩ := prefixOfIff.mp hpre
            rw [← hs, ← hlen, List.drop_left]
          refine Or.inr ⟨t, (c :: rest).drop k, ht, hl, ?_⟩
          rw [wlOkF_fuel (List.length rest) ((c :: rest).drop k)
            (by simp only [List.length_drop, List.length_cons]; omega)
            (List.length rest) (((c :: rest).drop k).length)
            (by simp only [List.length_drop, List.length_cons]; omega) le_rfl] at h'
          exact h'

theorem wlOk_appendN :
    ∀ n a, List.length a ≤ n → wlOk a = true → ∀ b, wlOk (a ++ b) = wlOk b := by
  intro n
  induction n with
  | zero =>
      intro a hl ha b
      have : a = [] := by cases a <;> simp_all
      subst this
      simp
  | succ n ih =>
      intro a hl ha b
      rcases wlOk_inv ha with rfl | ⟨c, z, rfl, hc, hz⟩ | ⟨t, z, ht, rfl, hz⟩
      · simp
      · simp only [List.cons_append]
        rw [wlOk_safe_cons hc]
        exact ih z (by simp at hl; omega) hz b
      · rw [List.append_assoc, wlOk_token ht]
        have hlt := (token_length ht).1
        exact ih z (by simp only [List.length_append] at hl; omega) hz b

theorem wlOk_append {a : List Char} (ha : wlOk a = true) (b : List Char) :
    wlOk (a ++ b) = wlOk b :=
  wlOk_appendN (List.length a) a le_rfl ha b

theorem marker_plain {m : Char} (hm : m = '*' ∨ m = '_') : plainCh m = true := by
  rcases hm with rfl | rfl <;> decide

theorem marker_not_mem_token {m : Char} (hm : m = '*' ∨ m = '_') {t : List Char}
    (ht : Token t) : m ∉ t := by
  rcases hm with rfl | rfl <;>
    rcases ht with rfl | rfl | rfl | rfl | rfl | rfl | rfl | rfl | rfl <;> decide

theorem wlOk_cutN {m : Char} (hm : m = '*' ∨ m = '_') :
    ∀ n x, List.length x ≤ n → ∀ y, wlOk (x ++ m :: y) = true →
      wlOk x = true ∧ wlOk y = true := by
  intro n
  induction n with
  | zero =>
      intro x hl y h
      have : x = [] := by cases x <;> simp_all
      subst this
      simp only [List.nil_append] at h
      rw [wlOk_safe_cons (marker_plain hm)] at h
      exact ⟨rfl, h⟩
  | succ n ih =>
      intro x hl y h
      match x with
      | [] =>
          simp only [List.nil_append] at h
          rw [wlOk_safe_cons (marker_plain hm)] at h
          exact ⟨rfl, h⟩
      | c :: x' =>
          rcases wlOk_inv h with heq | ⟨d, z, hdz, hd, hz⟩ | ⟨t, z, ht, htz, hz⟩
          · simp at heq
          · simp only [List.cons_append, List.cons.injEq] at hdz
            obtain ⟨rfl, hz2⟩ := hdz
            rw [← hz2] at hz
            obtain ⟨hx', hy⟩ := ih x' (by simp at hl; omega) y hz
            refine ⟨?_, hy⟩
            rw [wlOk_safe_cons hd]
            exact hx'
          · rcases List.append_eq_append_iff.mp htz with ⟨a', ht1, hb1⟩ | ⟨c', hc1, hc2⟩
            · match a' with
              | [] =>
                  simp only [List.append_nil] at ht1
                  simp only [List.nil_append] at hb1
                  have hwt := wlOk_token ht ([] : List Char)
                  rw [List.append_nil] at hwt
                  constructor
                  · rw [← ht1, hwt]
                    rfl
                  · rw [← hb1] at hz
                    rw [wlOk_safe_cons (marker_plain hm)] at hz
                    exact hz
              | e :: a'' =>
                  exfalso
                  simp only [List.cons_append, List.cons.injEq] at hb1
                  have hem : e = m := hb1.1.symm
                  have : m ∈ t := by
                    rw [ht1]
                    subst hem
                    simp
                  exact marker_not_mem_token hm ht this
            · rw [hc2] at hz
              have hlt := (token_length ht).1
              have hcl : List.length c' ≤ n := by
                have := congrArg List.length hc1
                simp only [List.length_cons, List.length_append] at this hl
                omega
              obtain ⟨hc', hy⟩ := ih c' hcl y hz
              refine ⟨?_, hy⟩
              rw [hc1, wlOk_token ht]
              exact hc'

theorem wlOk_cut {m : Char} (hm : m = '*' ∨ m = '_') {x y : List Char}
    (h : wlOk (x ++ m :: y) = true) : wlOk x = true ∧ wlOk y = true :=
  wlOk_cutN hm (List.length x) x le_rfl y h

theorem wlOk_safe_append {s : List Char} (hs : ∀ c ∈ s, plainCh c = true)
    (w : List Char) : wlOk (s ++ w) = wlOk w := by
  induction s with
  | nil => simp
  | cons c s' ih =>
      simp only [List.cons_append]
      rw [wlOk_safe_cons (hs c (by simp))]
      exact ih (fun d hd => hs d (by simp [hd]))

theorem escL_wlOk (l : List Char) : wlOk (escL l) = true := by
  induction l with
  | nil => rfl
  | cons c rest ih =>
      show wlOk (escChar c ++ escL rest) = true
      by_cases h1 : c = '&'
      · rw [show escChar c = entAmp by simp [escChar, h1]; decide]
        rw [wlOk_token (Or.inr (Or.inr (Or.inr (Or.inr (Or.inl rfl)))))]
        exact ih
      by_cases h2 : c = '<'
      · rw [show escChar c = entLt by simp [escChar, h1, h2]; decide]
        rw [wlOk_token (Or.inr (Or.inr (Or.inr (Or.inr (Or.inr (Or.inl rfl))))))]
        exact ih
      by_cases h3 : c = '>'
      · rw [show escChar c = entGt by simp [escChar, h1, h2, h3]; decide]
        rw [wlOk_token (Or.inr (Or.inr (Or.inr (Or.inr (Or.inr (Or.inr (Or.inl rfl)))))))]
        exact ih
      by_cases h4 : c = '"'
      · rw [show escChar c = entQuot by simp [escChar, h1, h2, h3, h4]; decide]
        rw [wlOk_token
          (Or.inr (Or.inr (Or.inr (Or.inr (Or.inr (Or.inr (Or.inr (Or.inl rfl))))))))]
        exact ih
      by_cases h5 : c = quoteCh
      · rw [show escChar c = entApos by simp [escChar, h1, h2, h3, h4, h5]; decide]
        rw [wlOk_token
          (Or.inr (Or.inr (Or.inr (Or.inr (Or.inr (Or.inr (Or.inr (Or.inr rfl))))))))]
        exact ih
      · rw [show escChar c = [c] by simp [escChar, h1, h2, h3, h4, h5]]
        have hp : plainCh c = true := by
          simp [plainCh, h1, h2, h3, h4, h5]
        show wlOk (c :: escL rest) = true
        rw [wlOk_safe_cons hp]
        exact ih

theorem subDouble_skip {m : Char} :
    ∀ t z : List Char, (∀ c ∈ t, c ≠ m) →
      subDouble m (t ++ z) = t ++ subDouble m z := by
  intro t
  induction t with
  | nil => intro z _; simp
  | cons c t' ih =>
      intro z h
      simp only [List.cons_append]
      rw [subDouble_step m c (t' ++ z) (Or.inl (h c (by simp)))]
      rw [ih z (fun d hd => h d (by simp [hd]))]

theorem subSingle_skip {m : Char} :
    ∀ t z : List Char, (∀ c ∈ t, c ≠ m) → t ≠ [] → ∀ prev : Option Char,
      ∃ prev', subSingle m prev (t ++ z) = t ++ subSingle m prev' z := by
  intro t
  induction t with
  | nil => intro z _ hne; exact absurd rfl hne
  | cons c t' ih =>
      intro z h _ prev
      simp only [List.cons_append]
      rw [subSingle_step m c prev (t' ++ z) (fun hc => h c (by simp) hc.1)]
      match t' with
      | [] => exact ⟨some c, rfl⟩
      | d :: t'' =>
          obtain ⟨prev', hp⟩ := ih z (fun d hd => h d (by simp [hd])) (by simp) (some c)
          exact ⟨prev', by rw [hp]⟩

theorem subSingle_open_nl (m : Char) (prev : Option Char) (rest2 : List Char)
    (hprev : prev ≠ some m) (hm : ('\n' : Char) ≠ m) :
    subSingle m prev (m :: '\n' :: rest2) = m :: subSingle m (some m) ('\n' :: rest2) := by
  show subSingleF m (('\n' :: rest2).length + 1) prev _ = _
  conv_lhs => rw [subSingleF]
  rw [if_pos (And.intro rfl (And.intro hprev (by simp [hm])))]
  rw [if_neg (show ¬(('\n' : Char) ≠ '\n') by simp)]
  rfl

theorem token_tagEmO : Token tagEmO := Or.inl rfl

theorem token_tagEmC : Token tagEmC := Or.inr (Or.inl rfl)

theorem token_tagStrongO : Token tagStrongO := Or.inr (Or.inr (Or.inl rfl))

theorem token_tagStrongC : Token tagStrongC := Or.inr (Or.inr (Or.inr (Or.inl rfl)))

theorem token_entLt : Token entLt :=
  Or.inr (Or.inr (Or.inr (Or.inr (Or.inr (Or.inl rfl)))))

theorem token_entGt : Token entGt :=
  Or.inr (Or.inr (Or.inr (Or.inr (Or.inr (Or.inr (Or.inl rfl))))))

theorem wlOk_subDouble {m : Char} (hm : m = '*' ∨ m = '_') :
    ∀ n l, List.length l ≤ n → wlOk l = true → wlOk (subDouble m l) = true := by
  intro n
  induction n with
  | zero =>
      intro l hl _
      have : l = [] := by cases l <;> simp_all
      subst this
      rfl
  | succ n ih =>
      intro l hl h
      rcases wlOk_inv h with rfl | ⟨c, z, rfl, hc, hz⟩ | ⟨t, z, ht, rfl, hz⟩
      · rfl
      · simp only [List.length_cons] at hl
        by_cases hcm : c = m
        · subst hcm
          match z, hz with
          | [], _ =>
              rw [subDouble_step c c [] (Or.inr (by simp)), subDouble_nil,
                wlOk_safe_cons hc]
              rfl
          | b :: z2, hz =>
              by_cases hbm : b = c
              · subst hbm
                have hz2 : wlOk z2 = true := by
                  rw [wlOk_safe_cons hc] at hz
                  exact hz
                match z2, hz2 with
                | [], _ =>
                    rw [subDouble_two, wlOk_safe_cons hc, wlOk_safe_cons hc]
                    rfl
                | c2 :: z3, hz2 =>
                    simp only [List.length_cons] at hl
                    by_cases hc2 : c2 = '\n'
                    · subst hc2
                      rw [subDouble_open_nl]
                      rw [wlOk_safe_cons hc]
                      refine ih (b :: '\n' :: z3) (by simp only [List.length_cons]; omega) ?_
                      rw [wlOk_safe_cons hc]
                      exact hz2
                    · cases hcd : closeDouble b [c2] z3 with
                      | none =>
                          rw [subDouble_open_none b c2 z3 hcd]
                          rw [wlOk_safe_cons hc]
                          refine ih (b :: c2 :: z3)
                            (by simp only [List.length_cons]; omega) ?_
                          rw [wlOk_safe_cons hc]
                          exact hz2
                      | some p =>
                          obtain ⟨g, rest4⟩ := p
                          rw [subDouble_open b c2 g z3 rest4 hc2 hcd]
                          obtain ⟨mid, hmid, hg, -⟩ :=
                            closeDouble_some b g rest4 z3 [c2] hcd
                          have hglen := closeDouble_length b g rest4 z3 [c2] hcd
                          have hgc : g = c2 :: mid := by simp [hg]
                          have hcut : wlOk (c2 :: mid) = true ∧ wlOk (b :: rest4) = true := by
                            apply wlOk_cut hm
                            have : (c2 :: mid) ++ b :: b :: rest4 = c2 :: z3 := by
                              rw [hmid]
                              simp
                            rw [this]
                            exact hz2
                          have hr4 : wlOk rest4 = true := by
                            have := hcut.2
                            rw [wlOk_safe_cons hc] at this
                            exact this
                          rw [show ("<strong>".data : List Char) = tagStrongO from rfl,
                            show ("</strong>".data : List Char) = tagStrongC from rfl]
                          rw [List.append_assoc, List.append_assoc]
                          rw [wlOk_token token_tagStrongO]
                          rw [wlOk_append (by rw [hgc]; exact hcut.1)]
                          rw [wlOk_token token_tagStrongC]
                          exact ih rest4 (by omega) hr4
              · rw [subDouble_step c c (b :: z2) (Or.inr (by simp [hbm]))]
                rw [wlOk_safe_cons hc]
                exact ih (b :: z2) (by omega) hz
        · rw [subDouble_step m c z (Or.inl hcm)]
          rw [wlOk_safe_cons hc]
          exact ih z (by omega) hz
      · have hnm := marker_not_mem_token hm ht
        rw [subDouble_skip t z (fun c hcm he => hnm (by rw [← he]; exact hcm))]
        rw [wlOk_token ht]
        have hlt := (token_length ht).1
        exact ih z (by simp only [List.length_append] at hl; omega) hz

theorem marker_ne_nl {m : Char} (hm : m = '*' ∨ m = '_') : ('\n' : Char) ≠ m := by
  rcases hm with rfl | rfl <;> decide

theorem wlOk_subSingle {m : Char} (hm : m = '*' ∨ m = '_') :
    ∀ n l, List.length l ≤ n → wlOk l = true → ∀ prev : Option Char,
      wlOk (subSingle m prev l) = true := by
  intro n
  induction n with
  | zero =>
      intro l hl _ prev
      have : l = [] := by cases l <;> simp_all
      subst this
      rw [subSingle_nil]
      rfl
  | succ n ih =>
      intro l hl h prev
      rcases wlOk_inv h with rfl | ⟨c, z, rfl, hc, hz⟩ | ⟨t, z, ht, rfl, hz⟩
      · rw [subSingle_nil]
        rfl
      · simp only [List.length_cons] at hl
        by_cases hcm : c = m
        · subst hcm
          by_cases hcond : prev ≠ some c ∧ z.head? ≠ some c
          · match z, hz, hcond with
            | [], _, _ =>
                rw [subSingle_single, wlOk_safe_cons hc]
                rfl
            | c2 :: z2, hz, hcond =>
                simp only [List.length_cons] at hl
                have hc2m : c2 ≠ c := by
                  intro he
                  exact hcond.2 (by simp [he])
                by_cases hc2 : c2 = '\n'
                · subst hc2
                  rw [subSingle_open_nl c prev z2 hcond.1 (marker_ne_nl hm)]
                  rw [wlOk_safe_cons hc]
                  exact ih ('\n' :: z2) (by simp only [List.length_cons]; omega) hz (some c)
                · cases hcd : closeSingle c [c2] z2 with
                  | none =>
                      rw [subSingle_open_none c c2 prev z2 hcond.1 hc2m hcd]
                      rw [wlOk_safe_cons hc]
                      exact ih (c2 :: z2) (by simp only [List.length_cons]; omega) hz
                        (some c)
                  | some p =>
                      obtain ⟨g, rest3⟩ := p
                      rw [subSingle_open c c2 prev g z2 rest3 hcond.1 hc2m hc2 hcd]
                      obtain ⟨mid, hmid, hg, -⟩ :=
                        closeSingle_some c g rest3 z2 [c2] hcd
                      have hglen := closeSingle_length c g rest3 z2 [c2] hcd
                      have hgc : g = c2 :: mid := by simp [hg]
                      have hcut : wlOk (c2 :: mid) = true ∧ wlOk rest3 = true := by
                        apply wlOk_cut hm
                        have : (c2 :: mid) ++ c :: rest3 = c2 :: z2 := by
                          rw [hmid]
                          simp
                        rw [this]
                        exact hz
                      rw [show ("<em>".data : List Char) = tagEmO from rfl,
                        show ("</em>".data : List Char) = tagEmC from rfl]
                      rw [List.append_assoc, List.append_assoc]
                      rw [wlOk_token token_tagEmO]
                      rw [wlOk_append (by rw [hgc]; exact hcut.1)]
                      rw [wlOk_token token_tagEmC]
                      exact ih rest3 (by omega) hcut.2 (some c)
          · rw [subSingle_step c c prev z (fun hfull => hcond ⟨hfull.2.1, hfull.2.2⟩)]
            rw [wlOk_safe_cons hc]
            exact ih z (by omega) hz (some c)
        · rw [subSingle_step m c prev z (fun hfull => hcm hfull.1)]
          rw [wlOk_safe_cons hc]
          exact ih z (by omega) hz (some c)
      · have hnm := marker_not_mem_token hm ht
        obtain ⟨prev', heq⟩ := subSingle_skip t z
          (fun c hcm he => hnm (by subst he; exact hcm)) (token_ne_nil ht) prev
        rw [heq, wlOk_token ht]
        have hlt := (token_length ht).1
        exact ih z (by simp only [List.length_append] at hl; omega) hz prev'

theorem isPrefixOf_head2 {a b c d : Char} {p l : List Char}
    (h : (a :: b :: p).isPrefixOf (c :: d :: l) = true) : a = c ∧ b = d := by
  have h2 : ((a == c) && ((b == d) && p.isPrefixOf l)) = true := h
  simp only [Bool.and_eq_true, beq_iff_eq] at h2
  exact ⟨h2.1, h2.2.1⟩

theorem isPrefixOf_append_cancel {a q z : List Char}
    (h : (a ++ q).isPrefixOf (a ++ z) = true) : q.isPrefixOf z = true := by
  induction a with
  | nil => exact h
  | cons c a ih =>
      have h2 : ((c == c) && (a ++ q).isPrefixOf (a ++ z)) = true := h
      simp only [Bool.and_eq_true] at h2
      exact ih h2.2

/-- The only token that the pattern `&lt; mid &gt;` can match at the head of is
the entity `&lt;`. -/
theorem token_match_lt {t z mid : List Char} (ht : Token t)
    (h : (entLt ++ mid ++ entGt).isPrefixOf (t ++ z) = true) : t = entLt := by
  rcases ht with rfl | rfl | rfl | rfl | rfl | rfl | rfl | rfl | rfl
  · exact absurd (isPrefixOf_head2 h).1 (by decide)
  · exact absurd (isPrefixOf_head2 h).1 (by decide)
  · exact absurd (isPrefixOf_head2 h).1 (by decide)
  · exact absurd (isPrefixOf_head2 h).1 (by decide)
  · exact absurd (isPrefixOf_head2 h).2 (by decide)
  · rfl
  · exact absurd (isPrefixOf_head2 h).2 (by decide)
  · exact absurd (isPrefixOf_head2 h).2 (by decide)
  · exact absurd (isPrefixOf_head2 h).2 (by decide)

theorem token_tail_no_amp {t : List Char} (ht : Token t) :
    ∃ c0 tt, t = c0 :: tt ∧ ∀ c ∈ tt, c ≠ '&' := by
  rcases ht with rfl | rfl | rfl | rfl | rfl | rfl | rfl | rfl | rfl <;>
    exact ⟨_, _, rfl, by decide⟩

/-- One whitelist re-enable `replaceList (&lt; mid &gt;) tag` preserves the
whitelist invariant when `mid` is plain text and the replacement is a
whitelisted token. -/
theorem wlOk_replaceList_pair {mid : List Char} (hmid : ∀ c ∈ mid, plainCh c = true)
    {r : List Char} (hr : Token r) :
    ∀ n l, List.length l ≤ n → wlOk l = true →
      wlOk (replaceList (entLt ++ mid ++ entGt) r l) = true := by
  intro n
  induction n with
  | zero =>
      intro l hl _
      have : l = [] := by cases l <;> simp_all
      subst this
      rw [replaceList_nil]
      rfl
  | succ n ih =>
      intro l hl h
      rcases wlOk_inv h with rfl | ⟨c, z, rfl, hc, hz⟩ | ⟨t, z, ht, rfl, hz⟩
      · rw [replaceList_nil]
        rfl
      · simp only [List.length_cons] at hl
        have hca : c ≠ '&' := (plainCh_spec hc).1
        have hneg : ¬(entLt ++ mid ++ entGt).isPrefixOf (c :: z) = true :=
          not_isPrefixOf_of_head_ne hca
        rw [replaceList_neg _ _ _ _ hneg, wlOk_safe_cons hc]
        exact ih z (by omega) hz
      · have hlt4 := (token_length ht).1
        simp only [List.length_append] at hl
        by_cases hpre : (entLt ++ mid ++ entGt).isPrefixOf (t ++ z) = true
        · have htlt := token_match_lt ht hpre
          subst htlt
          have hq : (mid ++ entGt).isPrefixOf z = true := by
            apply isPrefixOf_append_cancel
            have : (entLt ++ (mid ++ entGt)).isPrefixOf (entLt ++ z) = true := by
              rw [← List.append_assoc]
              exact hpre
            exact this
          obtain ⟨rest2, hrest⟩ := prefixOfIff.mp hq
          have hzeq : entLt ++ z = (entLt ++ mid ++ entGt) ++ rest2 := by
            rw [← hrest]
            simp [List.append_assoc]
          have hstep : replaceList (entLt ++ mid ++ entGt) r (entLt ++ z) =
              r ++ replaceList (entLt ++ mid ++ entGt) r
                ((entLt ++ z).drop (entLt ++ mid ++ entGt).length) := by
            exact replaceList_pos _ _ '&' (['l', 't', ';'] ++ z) (by simp [entLt]) hpre
          rw [hstep, hzeq, List.drop_left]
          rw [wlOk_token hr]
          have hwrest : wlOk rest2 = true := by
            have hz2 : wlOk (mid ++ (entGt ++ rest2)) = true := by
              have : mid ++ (entGt ++ rest2) = z := by
                rw [← hrest]
                simp [List.append_assoc]
              rw [this]
              exact hz
            rw [wlOk_safe_append hmid, wlOk_token token_entGt] at hz2
            exact hz2
          apply ih rest2 _ hwrest
          have : rest2.length ≤ z.length := by
            rw [← hrest]
            simp only [List.length_append]
            omega
          omega
        · obtain ⟨c0, tt, rfl, htt⟩ := token_tail_no_amp ht
          have hstep1 : replaceList (entLt ++ mid ++ entGt) r ((c0 :: tt) ++ z) =
              c0 :: replaceList (entLt ++ mid ++ entGt) r (tt ++ z) :=
            replaceList_neg _ _ c0 (tt ++ z) hpre
          have hstep2 : replaceList (entLt ++ mid ++ entGt) r (tt ++ z) =
              tt ++ replaceList (entLt ++ mid ++ entGt) r z :=
            replaceList_skip '&' ((['l', 't', ';'] ++ mid) ++ entGt) r tt z htt
          rw [hstep1, hstep2]
          have : c0 :: (tt ++ replaceList (entLt ++ mid ++ entGt) r z) =
              (c0 :: tt) ++ replaceList (entLt ++ mid ++ entGt) r z := rfl
          rw [this, wlOk_token ht]
          apply ih z _ hz
          simp only [List.length_cons] at hl
          omega

theorem wlOk_replaces8 (t : List Char) (h : wlOk t = true) :
    wlOk (replaceList "&lt;/b&gt;".data "</strong>".data
      (replaceList "&lt;b&gt;".data "<strong>".data
      (replaceList "&lt;/strong&gt;".data "</strong>".data
      (replaceList "&lt;strong&gt;".data "<strong>".data
      (replaceList "&lt;/i&gt;".data "</em>".data
      (replaceList "&lt;i&gt;".data "<em>".data
      (replaceList "&lt;/em&gt;".data "</em>".data
      (replaceList "&lt;em&gt;".data "<em>".data t)))))))) = true := by
  have h1 : wlOk (replaceList "&lt;em&gt;".data "<em>".data t) = true := by
    rw [show ("&lt;em&gt;".data : List Char) = entLt ++ "em".data ++ entGt from rfl,
      show ("<em>".data : List Char) = tagEmO from rfl]
    exact wlOk_replaceList_pair (by decide) token_tagEmO _ _ le_rfl h
  have h2 : wlOk (replaceList "&lt;/em&gt;".data "</em>".data
      (replaceList "&lt;em&gt;".data "<em>".data t)) = true := by
    rw [show ("&lt;/em&gt;".data : List Char) = entLt ++ "/em".data ++ entGt from rfl,
      show ("</em>".data : List Char) = tagEmC from rfl]
    exact wlOk_replaceList_pair (by decide) token_tagEmC _ _ le_rfl h1
  have h3 : wlOk (replaceList "&lt;i&gt;".data "<em>".data
      (replaceList "&lt;/em&gt;".data "</em>".data
      (replaceList "&lt;em&gt;".data "<em>".data t))) = true := by
    rw [show ("&lt;i&gt;".data : List Char) = entLt ++ "i".data ++ entGt from rfl,
      show ("<em>".data : List Char) = tagEmO from rfl]
    exact wlOk_replaceList_pair (by decide) token_tagEmO _ _ le_rfl h2
  have h4 : wlOk (replaceList "&lt;/i&gt;".data "</em>".data
      (replaceList "&lt;i&gt;".data "<em>".data
      (replaceList "&lt;/em&gt;".data "</em>".data
      (replaceList "&lt;em&gt;".data "<em>".data t)))) = true := by
    rw [show ("&lt;/i&gt;".data : List Char) = entLt ++ "/i".data ++ entGt from rfl,
      show ("</em>".data : List Char) = tagEmC from rfl]
    exact wlOk_replaceList_pair (by decide) token_tagEmC _ _ le_rfl h3
  have h5 : wlOk (replaceList "&lt;strong&gt;".data "<strong>".data
      (replaceList "&lt;/i&gt;".data "</em>".data
      (replaceList "&lt;i&gt;".data "<em>".data
      (replaceList "&lt;/em&gt;".data "</em>".data
      (replaceList "&lt;em&gt;".data "<em>".data t))))) = true := by
    rw [show ("&lt;strong&gt;".data : List Char) = entLt ++ "strong".data ++ entGt
        from rfl,
      show ("<strong>".data : List Char) = tagStrongO from rfl]
    exact wlOk_replaceList_pair (by decide) token_tagStrongO _ _ le_rfl h4
  have h6 : wlOk (replaceList "&lt;/strong&gt;".data "</strong>".data
      (replaceList "&lt;strong&gt;".data "<strong>".data
      (replaceList "&lt;/i&gt;".data "</em>".data
      (replaceList "&lt;i&gt;".data "<em>".data
      (replaceList "&lt;/em&gt;".data "</em>".data
      (replaceList "&lt;em&gt;".data "<em>".data t)))))) = true := by
    rw [show ("&lt;/strong&gt;".data : List Char) = entLt ++ "/strong".data ++ entGt
        from rfl,
      show ("</strong>".data : List Char) = tagStrongC from rfl]
    exact wlOk_replaceList_pair (by decide) token_tagStrongC _ _ le_rfl h5
  have h7 : wlOk (replaceList "&lt;b&gt;".data "<strong>".data
      (replaceList "&lt;/strong&gt;".data "</strong>".data
      (replaceList "&lt;strong&gt;".data "<strong>".data
      (replaceList "&lt;/i&gt;".data "</em>".data
      (replaceList "&lt;i&gt;".data "<em>".data
      (replaceList "&lt;/em&gt;".data "</em>".data
      (replaceList "&lt;em&gt;".data "<em>".data t))))))) = true := by
    rw [show ("&lt;b&gt;".data : List Char) = entLt ++ "b".data ++ entGt from rfl,
      show ("<strong>".data : List Char) = tagStrongO from rfl]
    exact wlOk_replaceList_pair (by decide) token_tagStrongO _ _ le_rfl h6
  rw [show ("&lt;/b&gt;".data : List Char) = entLt ++ "/b".data ++ entGt from rfl,
    show ("</strong>".data : List Char) = tagStrongC from rfl]
  exact wlOk_replaceList_pair (by decide) token_tagStrongC _ _ le_rfl h7

theorem fmtL_wlOk (l : List Char) : wlOk (fmtL l) = true := by
  have h0 : wlOk (escL l) = true := escL_wlOk l
  have h1 : wlOk (subDouble '*' (escL l)) = true :=
    wlOk_subDouble (Or.inl rfl) _ _ le_rfl h0
  have h2 : wlOk (subDouble '_' (subDouble '*' (escL l))) = true :=
    wlOk_subDouble (Or.inr rfl) _ _ le_rfl h1
  have h3 : wlOk (subSingle '*' none (subDouble '_' (subDouble '*' (escL l)))) = true :=
    wlOk_subSingle (Or.inl rfl) _ _ le_rfl h2 none
  have h4 : wlOk (subSingle '_' none
      (subSingle '*' none (subDouble '_' (subDouble '*' (escL l))))) = true :=
    wlOk_subSingle (Or.inr rfl) _ _ le_rfl h3 none
  exact wlOk_replaces8 _ h4

/-- The whitelist language, stated as a grammar: a string is `WL` iff it is a
concatenation of plain characters (characters other than the markup-significant
`<`, `>`, `"`, `'`, `&`) and whitelisted tokens (the four tag pairs
`<em> </em> <strong> </strong>` and the five escape entities
`&amp; &lt; &gt; &quot; &#x27;`). -/
inductive WL : List Char → Prop
  | nil : WL []
  | plain (c : Char) (h : plainCh c = true) (l : List Char) : WL l → WL (c :: l)
  | tok (t : List Char) (h : Token t) (l : List Char) : WL l → WL (t ++ l)

theorem WL_of_wlOk : ∀ n l, List.length l ≤ n → wlOk l = true → WL l := by
  intro n
  induction n with
  | zero =>
      intro l hl _
      have : l = [] := by cases l <;> simp_all
      subst this
      exact WL.nil
  | succ n ih =>
      intro l hl h
      rcases wlOk_inv h with rfl | ⟨c, z, rfl, hc, hz⟩ | ⟨t, z, ht, rfl, hz⟩
      · exact WL.nil
      · simp only [List.length_cons] at hl
        exact WL.plain c hc z (ih z (by omega) hz)
      · have ht4 := (token_length ht).1
        simp only [List.length_append] at hl
        exact WL.tok t ht z (ih z (by omega) hz)

theorem wlOk_of_WL {l : List Char} (h : WL l) : wlOk l = true := by
  induction h with
  | nil => rfl
  | plain c hc z _ ih => rw [wlOk_safe_cons hc]; exact ih
  | tok t ht z _ ih => rw [wlOk_token ht]; exact ih

/-- C1: for every input text, both the HTML-escaping step `esc` and the full
text formatter `fmt` produce output in the whitelist language `WL`: a
concatenation of plain characters — never a raw `<`, `>`, `"`, `'` or `&` —
and whitelisted markup, namely the four tag pairs re-enabled or generated by
the formatter (`<em> </em> <strong> </strong>`) and the five HTML escape
entities.  Hence no unescaped user-controlled markup-significant character ever
appears outside the whitelisted tag set in an escaped field or a formatted
abstract. -/
theorem C1_escape_whitelist (s : String) :
    WL (escL s.data) ∧ WL (fmtL s.data) :=
  ⟨WL_of_wlOk (List.length (escL s.data)) (escL s.data) le_rfl (escL_wlOk s.data),
   WL_of_wlOk (List.length (fmtL s.data)) (fmtL s.data) le_rfl (fmtL_wlOk s.data)⟩

/-! Machinery for C9: decomposing the sequential placeholder substitution of
`main` into the fixed template segments around the four item slots. -/

/-- `cleanFor p x` holds when the pattern `p` cannot match at any position of
`x`, even a match that would straddle past the end of `x` into appended text:
at every position, `p` is not a prefix of the remaining text and the remaining
text is not a prefix of `p`. -/
def cleanFor (p : List Char) : List Char → Bool
  | [] => true
  | c :: rest =>
      !(p.isPrefixOf (c :: rest)) && (!((c :: rest).isPrefixOf p) && cleanFor p rest)

theorem bool_eq_false {b : Bool} (h : ¬b = true) : b = false := by
  cases b
  · rfl
  · exact absurd rfl h

theorem cleanFor_cons_elim {p : List Char} {c : Char} {rest : List Char}
    (h : cleanFor p (c :: rest) = true) :
    ¬p.isPrefixOf (c :: rest) = true ∧ ¬(c :: rest).isPrefixOf p = true
      ∧ cleanFor p rest = true := by
  simp only [cleanFor, Bool.and_eq_true, Bool.not_eq_true'] at h
  refine ⟨?_, ?_, h.2.2⟩
  · rw [h.1]
    simp
  · rw [h.2.1]
    simp

theorem cleanFor_cons_intro {p : List Char} {c : Char} {rest : List Char}
    (h1 : ¬p.isPrefixOf (c :: rest) = true) (h2 : ¬(c :: rest).isPrefixOf p = true)
    (h3 : cleanFor p rest = true) : cleanFor p (c :: rest) = true := by
  show (!(p.isPrefixOf (c :: rest)) && (!((c :: rest).isPrefixOf p) && cleanFor p rest))
      = true
  rw [bool_eq_false h1, bool_eq_false h2, h3]
  rfl

/-- A pattern that cannot match inside `x` (nor straddling out of it) scans
past `x` untouched. -/
theorem replaceList_clean (p r : List Char) :
    ∀ x, cleanFor p x = true → ∀ b, replaceList p r (x ++ b) = x ++ replaceList p r b := by
  intro x
  induction x with
  | nil => intro _ b; rfl
  | cons c rest ih =>
      intro h b
      obtain ⟨h1, h2, h3⟩ := cleanFor_cons_elim h
      have hneg : ¬p.isPrefixOf (c :: (rest ++ b)) = true :=
        isPrefixOf_append_false h1 h2
      rw [show (c :: rest) ++ b = c :: (rest ++ b) from rfl,
        replaceList_neg p r c (rest ++ b) hneg, ih h3 b]
      rfl

theorem cleanFor_append {p : List Char} :
    ∀ x y, cleanFor p x = true → cleanFor p y = true → cleanFor p (x ++ y) = true := by
  intro x
  induction x with
  | nil => intro y _ hy; exact hy
  | cons c rest ih =>
      intro y hx hy
      obtain ⟨h1, h2, h3⟩ := cleanFor_cons_elim hx
      have g1 : ¬p.isPrefixOf (c :: (rest ++ y)) = true := isPrefixOf_append_false h1 h2
      have g2 : ¬(c :: (rest ++ y)).isPrefixOf p = true := by
        intro hc
        apply h2
        apply prefixOfIff.mpr
        exact (List.prefix_append (c :: rest) y).trans (prefixOfIff.mp hc)
      show cleanFor p (c :: (rest ++ y)) = true
      exact cleanFor_cons_intro g1 g2 (ih y h3 hy)

theorem replaceList_none (p r x : List Char) (h : cleanFor p x = true) :
    replaceList p r x = x := by
  have h2 := replaceList_clean p r x h []
  simp only [List.append_nil, replaceList_nil] at h2
  exact h2

theorem not_isPrefixOf_append_of_le {s x : List Char} (y : List Char)
    (hlen : List.length s ≤ List.length x) (h : ¬s.isPrefixOf x = true) :
    ¬s.isPrefixOf (x ++ y) = true := by
  intro hc
  apply h
  apply prefixOfIff.mpr
  have heq : s = (x ++ y).take s.length :=
    List.prefix_iff_eq_take.mp (prefixOfIff.mp hc)
  rw [List.take_append_of_le_length hlen] at heq
  rw [heq]
  exact List.take_prefix _ _

theorem noStrad_ext {p x : List Char} (y : List Char)
    (hlen : List.length p ≤ List.length x + 1)
    (h : ∀ k, k < List.length p → 0 < k → ¬(List.drop k p).isPrefixOf x = true) :
    ∀ k, k < List.length p → 0 < k → ¬(List.drop k p).isPrefixOf (x ++ y) = true := by
  intro k hkp hk
  apply not_isPrefixOf_append_of_le y _ (h k hkp hk)
  rw [List.length_drop]
  omega

/-- A match of `p` exactly at the head of `p ++ b` replaces it and scans on. -/
theorem replaceList_here (p r : List Char) (hp : p ≠ []) (b : List Char) :
    replaceList p r (p ++ b) = r ++ replaceList p r b := by
  match p, hp with
  | c :: p1, hp =>
      rw [show (c :: p1) ++ b = c :: (p1 ++ b) from rfl,
        replaceList_pos (c :: p1) r c (p1 ++ b) hp
          (by rw [show c :: (p1 ++ b) = (c :: p1) ++ b from rfl]
              exact isPrefixOf_append_self (c :: p1) b)]
      congr 1
      rw [show c :: (p1 ++ b) = (c :: p1) ++ b from rfl, List.drop_left]

/-- Scanning an arbitrary region `J` followed by `R`, when no partial match of
`p` can straddle from `J` into `R`, rewrites `J` to some `J2` and then scans
`R` independently; a region `J` that is clean for `p` is left unchanged. -/
theorem replaceList_seg (p r R : List Char) (hp : p ≠ [])
    (hstr : ∀ k, k < List.length p → 0 < k → ¬(List.drop k p).isPrefixOf R = true) :
    ∀ n J, List.length J ≤ n →
      ∃ J2, replaceList p r (J ++ R) = J2 ++ replaceList p r R
        ∧ (cleanFor p J = true → J2 = J) := by
  intro n
  induction n with
  | zero =>
      intro J hJ
      have : J = [] := by cases J <;> simp_all
      subst this
      exact ⟨[], rfl, fun _ => rfl⟩
  | succ n ih =>
      intro J hJ
      cases J with
      | nil => exact ⟨[], rfl, fun _ => rfl⟩
      | cons c J1 =>
          simp only [List.length_cons] at hJ
          by_cases hpre : p.isPrefixOf ((c :: J1) ++ R) = true
          · have hple : List.length p ≤ List.length (c :: J1) := by
              by_contra hlt
              push_neg at hlt
              rcases prefixComparable (prefixOfIff.mp hpre)
                  (List.prefix_append (c :: J1) R) with hcase | hcase
              · exact absurd (hcase.length_le) (by omega)
              · obtain ⟨p2, hp2⟩ := hcase
                have hk : List.length (c :: J1) < List.length p := hlt
                have hdrop : List.drop (List.length (c :: J1)) p = p2 := by
                  rw [← hp2]
                  exact List.drop_left _ _
                have hpre2 : p2.isPrefixOf R = true := by
                  apply isPrefixOf_append_cancel
                  rw [hp2]
                  exact hpre
                have := hstr (List.length (c :: J1)) hk (by simp)
                rw [hdrop] at this
                exact this hpre2
            rw [show (c :: J1) ++ R = c :: (J1 ++ R) from rfl,
              replaceList_pos p r c (J1 ++ R) hp hpre,
              show c :: (J1 ++ R) = (c :: J1) ++ R from rfl,
              List.drop_append_of_le_length hple]
            have hlen2 : List.length ((c :: J1).drop (List.length p)) ≤ n := by
              rw [List.length_drop]
              have hp1 : 1 ≤ List.length p := by
                cases p
                · exact absurd rfl hp
                · simp
              simp only [List.length_cons]
              omega
            obtain ⟨J2, heq, _⟩ := ih ((c :: J1).drop (List.length p)) hlen2
            refine ⟨r ++ J2, ?_, ?_⟩
            · rw [heq, List.append_assoc]
            · intro hcl
              obtain ⟨h1, h2, _⟩ := cleanFor_cons_elim hcl
              exact absurd hpre (isPrefixOf_append_false h1 h2)
          · rw [show (c :: J1) ++ R = c :: (J1 ++ R) from rfl,
              replaceList_neg p r c (J1 ++ R) hpre]
            obtain ⟨J2, heq, hpres⟩ := ih J1 (by omega)
            refine ⟨c :: J2, ?_, ?_⟩
            · rw [heq]
              rfl
            · intro hcl
              obtain ⟨_, _, h3⟩ := cleanFor_cons_elim hcl
              rw [hpres h3]

/-- `containsL needle hay`: `needle` occurs as a contiguous substring of `hay`. -/
def containsL (needle : List Char) : List Char → Bool
  | [] => needle.isEmpty
  | c :: rest => needle.isPrefixOf (c :: rest) || containsL needle rest

theorem containsL_append_right (x : List Char) {needle y : List Char}
    (h : containsL needle y = true) : containsL needle (x ++ y) = true := by
  induction x with
  | nil => exact h
  | cons c rest ih =>
      show containsL needle (c :: (rest ++ y)) = true
      simp only [containsL, Bool.or_eq_true]
      exact Or.inr ih

theorem containsL_append_left {needle x : List Char} (y : List Char)
    (h : containsL needle x = true) : containsL needle (x ++ y) = true := by
  induction x with
  | nil =>
      simp only [containsL, List.isEmpty_iff] at h
      subst h
      cases y with
      | nil => rfl
      | cons c rest =>
          simp [containsL, List.isPrefixOf]
  | cons c rest ih =>
      show containsL needle (c :: (rest ++ y)) = true
      simp only [containsL, Bool.or_eq_true] at h ⊢
      rcases h with h | h
      · left
        apply prefixOfIff.mpr
        exact (prefixOfIff.mp h).trans (List.prefix_append (c :: rest) y)
      · right
        exact ih h

theorem shellA_data : shellA.data = shellAc1.data ++ shellAc2.data ++ shellAc3.data
    ++ shellAc4.data ++ shellAc5.data ++ shellAc6.data ++ shellAc7.data
    ++ shellAc8.data := by
  simp [shellA, String.data_append]

theorem shellE_data : shellE.data = shellEc1.data ++ shellEc2.data ++ shellEc3.data := by
  simp [shellE, String.data_append]

theorem cleanFor_shellA {p : List Char}
    (h1 : cleanFor p shellAc1.data = true) (h2 : cleanFor p shellAc2.data = true)
    (h3 : cleanFor p shellAc3.data = true) (h4 : cleanFor p shellAc4.data = true)
    (h5 : cleanFor p shellAc5.data = true) (h6 : cleanFor p shellAc6.data = true)
    (h7 : cleanFor p shellAc7.data = true) (h8 : cleanFor p shellAc8.data = true) :
    cleanFor p shellA.data = true := by
  rw [shellA_data]
  exact cleanFor_append _ _ (cleanFor_append _ _ (cleanFor_append _ _
    (cleanFor_append _ _ (cleanFor_append _ _ (cleanFor_append _ _
      (cleanFor_append _ _ h1 h2) h3) h4) h5) h6) h7) h8

theorem cleanFor_shellE {p : List Char}
    (h1 : cleanFor p shellEc1.data = true) (h2 : cleanFor p shellEc2.data = true)
    (h3 : cleanFor p shellEc3.data = true) : cleanFor p shellE.data = true := by
  rw [shellE_data]
  exact cleanFor_append _ _ (cleanFor_append _ _ h1 h2) h3

theorem cfJ_A : cleanFor phJOURNAL.data shellA.data = true :=
  cleanFor_shellA (by decide) (by decide) (by decide) (by decide) (by decide)
    (by decide) (by decide) (by decide)

theorem cfW_A : cleanFor phWORKING.data shellA.data = true :=
  cleanFor_shellA (by decide) (by decide) (by decide) (by decide) (by decide)
    (by decide) (by decide) (by decide)

theorem cfC_A : cleanFor phCONF.data shellA.data = true :=
  cleanFor_shellA (by decide) (by decide) (by decide) (by decide) (by decide)
    (by decide) (by decide) (by decide)

theorem cfO_A : cleanFor phOTHER.data shellA.data = true :=
  cleanFor_shellA (by decide) (by decide) (by decide) (by decide) (by decide)
    (by decide) (by decide) (by decide)

theorem cfJ_E : cleanFor phJOURNAL.data shellE.data = true :=
  cleanFor_shellE (by decide) (by decide) (by decide)

theorem cfW_E : cleanFor phWORKING.data shellE.data = true :=
  cleanFor_shellE (by decide) (by decide) (by decide)

theorem cfC_E : cleanFor phCONF.data shellE.data = true :=
  cleanFor_shellE (by decide) (by decide) (by decide)

theorem cfO_E : cleanFor phOTHER.data shellE.data = true :=
  cleanFor_shellE (by decide) (by decide) (by decide)

/-- Substituting the journal items into the template: the document splits at
the `JOURNAL_ITEMS` placeholder. -/
theorem st1 (J : List Char) :
    replaceList phJOURNAL.data J SHELL.data =
      shellA.data ++ (J ++ (shellB.data ++ (phCONF.data ++ (shellC.data ++
        (phWORKING.data ++ (shellD.data ++ (phOTHER.data ++ shellE.data))))))) := by
  have hshell : SHELL.data = shellA.data ++ (phJOURNAL.data ++ (shellB.data ++
      (phCONF.data ++ (shellC.data ++ (phWORKING.data ++ (shellD.data ++
        (phOTHER.data ++ shellE.data))))))) := by
    simp [SHELL, String.data_append, List.append_assoc]
  have cfrest : cleanFor phJOURNAL.data (shellB.data ++ (phCONF.data ++ (shellC.data
      ++ (phWORKING.data ++ (shellD.data ++ (phOTHER.data ++ shellE.data)))))) = true :=
    cleanFor_append _ _ (by decide) (cleanFor_append _ _ (by decide)
      (cleanFor_append _ _ (by decide) (cleanFor_append _ _ (by decide)
        (cleanFor_append _ _ (by decide) (cleanFor_append _ _ (by decide) cfJ_E)))))
  rw [hshell, replaceList_clean phJOURNAL.data J shellA.data cfJ_A,
    replaceList_here phJOURNAL.data J (by decide),
    replaceList_none _ _ _ cfrest]

/-- Substituting the working items: the journal slot content `J` is rewritten
to some `J2` (unchanged when clean) and the `WORKING_ITEMS` placeholder is
replaced. -/
theorem st2 (J W : List Char) :
    ∃ J2, replaceList phWORKING.data W
        (shellA.data ++ (J ++ (shellB.data ++ (phCONF.data ++ (shellC.data ++
          (phWORKING.data ++ (shellD.data ++ (phOTHER.data ++ shellE.data)))))))) =
      shellA.data ++ (J2 ++ (shellB.data ++ (phCONF.data ++ (shellC.data ++
        (W ++ (shellD.data ++ (phOTHER.data ++ shellE.data)))))))
      ∧ (cleanFor phWORKING.data J = true → J2 = J) := by
  have hstr : ∀ k, k < List.length phWORKING.data → 0 < k →
      ¬(List.drop k phWORKING.data).isPrefixOf (shellB.data ++ (phCONF.data ++
        (shellC.data ++ (phWORKING.data ++ (shellD.data ++
          (phOTHER.data ++ shellE.data)))))) = true :=
    noStrad_ext _ (by decide) (by decide)
  obtain ⟨J2, heq, hpres⟩ :=
    replaceList_seg phWORKING.data W _ (by decide) hstr (List.length J) J le_rfl
  have cftail : cleanFor phWORKING.data (shellD.data ++ (phOTHER.data ++ shellE.data))
      = true :=
    cleanFor_append _ _ (by decide) (cleanFor_append _ _ (by decide) cfW_E)
  refine ⟨J2, ?_, hpres⟩
  rw [replaceList_clean phWORKING.data W shellA.data cfW_A, heq,
    replaceList_clean phWORKING.data W shellB.data (by decide),
    replaceList_clean phWORKING.data W phCONF.data (by decide),
    replaceList_clean phWORKING.data W shellC.data (by decide),
    replaceList_here phWORKING.data W (by decide),
    replaceList_none _ _ _ cftail]

/-- Substituting the conference items: the journal and working slot contents
are rewritten (unchanged when clean) and the `CONF_ITEMS` placeholder is
replaced. -/
theorem st3 (J C W : List Char) :
    ∃ J2 W2, replaceList phCONF.data C
        (shellA.data ++ (J ++ (shellB.data ++ (phCONF.data ++ (shellC.data ++
          (W ++ (shellD.data ++ (phOTHER.data ++ shellE.data)))))))) =
      shellA.data ++ (J2 ++ (shellB.data ++ (C ++ (shellC.data ++
        (W2 ++ (shellD.data ++ (phOTHER.data ++ shellE.data)))))))
      ∧ (cleanFor phCONF.data J = true → J2 = J)
      ∧ (cleanFor phCONF.data W = true → W2 = W) := by
  have hstrW : ∀ k, k < List.length phCONF.data → 0 < k →
      ¬(List.drop k phCONF.data).isPrefixOf (shellD.data ++ (phOTHER.data ++
        shellE.data)) = true :=
    noStrad_ext _ (by decide) (by decide)
  obtain ⟨W2, heqW, hpresW⟩ :=
    replaceList_seg phCONF.data C _ (by decide) hstrW (List.length W) W le_rfl
  have hstrJ : ∀ k, k < List.length phCONF.data → 0 < k →
      ¬(List.drop k phCONF.data).isPrefixOf (shellB.data ++ (phCONF.data ++
        (shellC.data ++ (W ++ (shellD.data ++ (phOTHER.data ++ shellE.data))))))
        = true :=
    noStrad_ext _ (by decide) (by decide)
  obtain ⟨J2, heqJ, hpresJ⟩ :=
    replaceList_seg phCONF.data C _ (by decide) hstrJ (List.length J) J le_rfl
  have cftail : cleanFor phCONF.data (shellD.data ++ (phOTHER.data ++ shellE.data))
      = true :=
    cleanFor_append _ _ (by decide) (cleanFor_append _ _ (by decide) cfC_E)
  refine ⟨J2, W2, ?_, hpresJ, hpresW⟩
  rw [replaceList_clean phCONF.data C shellA.data cfC_A, heqJ,
    replaceList_clean phCONF.data C shellB.data (by decide),
    replaceList_here phCONF.data C (by decide),
    replaceList_clean phCONF.data C shellC.data (by decide),
    heqW,
    replaceList_none _ _ _ cftail]

/-- Substituting the other items: the three earlier slot contents are
rewritten (unchanged when clean) and the `OTHER_ITEMS` placeholder is
replaced. -/
theorem st4 (J C W O : List Char) :
    ∃ J2 C2 W2, replaceList phOTHER.data O
        (shellA.data ++ (J ++ (shellB.data ++ (C ++ (shellC.data ++
          (W ++ (shellD.data ++ (phOTHER.data ++ shellE.data)))))))) =
      shellA.data ++ (J2 ++ (shellB.data ++ (C2 ++ (shellC.data ++
        (W2 ++ (shellD.data ++ (O ++ shellE.data)))))))
      ∧ (cleanFor phOTHER.data J = true → J2 = J)
      ∧ (cleanFor phOTHER.data C = true → C2 = C)
      ∧ (cleanFor phOTHER.data W = true → W2 = W) := by
  have hstrW : ∀ k, k < List.length phOTHER.data → 0 < k →
      ¬(List.drop k phOTHER.data).isPrefixOf (shellD.data ++ (phOTHER.data ++
        shellE.data)) = true :=
    noStrad_ext _ (by decide) (by decide)
  obtain ⟨W2, heqW, hpresW⟩ :=
    replaceList_seg phOTHER.data O _ (by decide) hstrW (List.length W) W le_rfl
  have hstrC : ∀ k, k < List.length phOTHER.data → 0 < k →
      ¬(List.drop k phOTHER.data).isPrefixOf (shellC.data ++ (W ++ (shellD.data ++
        (phOTHER.data ++ shellE.data)))) = true :=
    noStrad_ext _ (by decide) (by decide)
  obtain ⟨C2, heqC, hpresC⟩ :=
    replaceList_seg phOTHER.data O _ (by decide) hstrC (List.length C) C le_rfl
  have hstrJ : ∀ k, k < List.length phOTHER.data → 0 < k →
      ¬(List.drop k phOTHER.data).isPrefixOf (shellB.data ++ (C ++ (shellC.data ++
        (W ++ (shellD.data ++ (phOTHER.data ++ shellE.data)))))) = true :=
    noStrad_ext _ (by decide) (by decide)
  obtain ⟨J2, heqJ, hpresJ⟩ :=
    replaceList_seg phOTHER.data O _ (by decide) hstrJ (List.length J) J le_rfl
  refine ⟨J2, C2, W2, ?_, hpresJ, hpresC, hpresW⟩
  rw [replaceList_clean phOTHER.data O shellA.data cfO_A, heqJ,
    replaceList_clean phOTHER.data O shellB.data (by decide),
    heqC,
    replaceList_clean phOTHER.data O shellC.data (by decide),
    heqW,
    replaceList_clean phOTHER.data O shellD.data (by decide),
    replaceList_here phOTHER.data O (by decide),
    replaceList_none _ _ _ cfO_E]

/-- C9: for every input record list — including inputs leaving any or all
buckets empty — the assembled document splits as the fixed template segments
`shellA … shellE` around the four item slots, in the fixed order Journal
(slot after `shellA`), Conference (after `shellB`), Working (after `shellC`),
Other (after `shellD`); each of the four section headers is present in the
output, and an empty bucket renders its slot as the structurally present
single newline `"\n"`, so no section is ever omitted. -/
theorem C9_sections (rows : List Rec) :
    ∃ j c w o : List Char,
      htmlOutL rows = shellA.data ++ (j ++ (shellB.data ++ (c ++ (shellC.data ++
        (w ++ (shellD.data ++ (o ++ shellE.data)))))))
      ∧ ((bucketsOf rows).journal = [] → j = "\n".data)
      ∧ ((bucketsOf rows).conference = [] → c = "\n".data)
      ∧ ((bucketsOf rows).working = [] → w = "\n".data)
      ∧ ((bucketsOf rows).other = [] → o = "\n".data)
      ∧ containsL "Journal Papers".data (htmlOutL rows) = true
      ∧ containsL "Conference Proceedings".data (htmlOutL rows) = true
      ∧ containsL "Working Papers".data (htmlOutL rows) = true
      ∧ containsL "Other Articles".data (htmlOutL rows) = true := by
  obtain ⟨J2, e2, p2⟩ := st2 ((itemsStr (bucketsOf rows).journal).data)
    ((itemsStr (bucketsOf rows).working).data)
  obtain ⟨J3, W2, e3, p3J, p3W⟩ := st3 J2
    ((itemsStr (bucketsOf rows).conference).data)
    ((itemsStr (bucketsOf rows).working).data)
  obtain ⟨J4, C2, W3, e4, p4J, p4C, p4W⟩ := st4 J3
    ((itemsStr (bucketsOf rows).conference).data) W2
    ((itemsStr (bucketsOf rows).other).data)
  have feq : htmlOutL rows = shellA.data ++ (J4 ++ (shellB.data ++ (C2 ++
      (shellC.data ++ (W3 ++ (shellD.data ++
        ((itemsStr (bucketsOf rows).other).data ++ shellE.data))))))) := by
    simp only [htmlOutL]
    rw [st1, e2, e3, e4]
  refine ⟨J4, C2, W3, (itemsStr (bucketsOf rows).other).data, feq,
    ?_, ?_, ?_, ?_, ?_, ?_, ?_, ?_⟩
  · intro h
    have hJ : (itemsStr (bucketsOf rows).journal).data = "\n".data := by
      rw [h]
      decide
    have c2 : J2 = "\n".data := by
      rw [p2 (by rw [hJ]; decide), hJ]
    have c3 : J3 = "\n".data := by
      rw [p3J (by rw [c2]; decide), c2]
    rw [p4J (by rw [c3]; decide), c3]
  · intro h
    have hC : (itemsStr (bucketsOf rows).conference).data = "\n".data := by
      rw [h]
      decide
    rw [p4C (by rw [hC]; decide), hC]
  · intro h
    have hW : (itemsStr (bucketsOf rows).working).data = "\n".data := by
      rw [h]
      decide
    have cW2 : W2 = "\n".data := by
      rw [p3W (by rw [hW]; decide), hW]
    rw [p4W (by rw [cW2]; decide), cW2]
  · intro h
    rw [h]
    decide
  · rw [feq]
    apply containsL_append_left
    rw [shellA_data]
    exact containsL_append_right _ (by decide)
  · rw [feq]
    apply containsL_append_right
    apply containsL_append_right
    exact containsL_append_left _ (by decide)
  · rw [feq]
    apply containsL_append_right
    apply containsL_append_right
    apply containsL_append_right
    apply containsL_append_right
    exact containsL_append_left _ (by decide)
  · rw [feq]
    apply containsL_append_right
    apply containsL_append_right
    apply containsL_append_right
    apply containsL_append_right
    apply containsL_append_right
    apply containsL_append_right
    exact containsL_append_left _ (by decide)

theorem C9_sections_witness :
    ∃ j c w o : List Char,
      htmlOutL [] = shellA.data ++ (j ++ (shellB.data ++ (c ++ (shellC.data ++
        (w ++ (shellD.data ++ (o ++ shellE.data)))))))
      ∧ ((bucketsOf []).journal = [] → j = "\n".data)
      ∧ ((bucketsOf []).conference = [] → c = "\n".data)
      ∧ ((bucketsOf []).working = [] → w = "\n".data)
      ∧ ((bucketsOf []).other = [] → o = "\n".data)
      ∧ containsL "Journal Papers".data (htmlOutL []) = true
      ∧ containsL "Conference Proceedings".data (htmlOutL []) = true
      ∧ containsL "Working Papers".data (htmlOutL []) = true
      ∧ containsL "Other Articles".data (htmlOutL []) = true :=
  C9_sections []
